import Mathlib

/-!
# lit::Light — visibility polygon of a point light behind line occluders

A shallow embedding of `src/light.hpp` / `src/light.cpp`.

* `float` values are read as exact rationals (`ℚ`); rounding, infinities and NaN are not
  modelled there. For `getIntersection` and the ray loop a second reading as IEEE 754 binary32
  (`F32`, `Binary32.*`) follows the same source lines.
* `atan2f`, `cosf`, `sinf` (libm) and `std::sort` (libstdc++) are not part of the repository;
  they are parameters of the model (`Libm`, `StdSort`).
* `std::vector` is a `List`; `push_back` appends at the end.
* The `sf::Shader` member is a GPU resource and is left out of the state.
-/

namespace lit

/-! ## Data model (`light.hpp`) -/

/-- The SFML type `sf::Vector2f`: a pair of coordinates, default `(0, 0)`. -/
structure Vector2f where
  x : ℚ := 0
  y : ℚ := 0
deriving DecidableEq, Inhabited

/-- The SFML type `sf::Color`: four 8-bit channels. -/
structure Color where
  r : Nat
  g : Nat
  b : Nat
  a : Nat := 255
deriving DecidableEq

/-- The SFML type `sf::Vertex`: position, color and texture coordinates. -/
structure Vertex where
  position : Vector2f
  color : Color
  texCoords : Vector2f
deriving DecidableEq

/-- The default-constructed `sf::Vertex`: origin, opaque white, texture coordinates `(0, 0)`. -/
instance : Inhabited Vertex := ⟨⟨⟨0, 0⟩, ⟨255, 255, 255, 255⟩, ⟨0, 0⟩⟩⟩

/-- The struct `lit::Line`. The member `end` is spelled `end_` (`end` is reserved in Lean). -/
structure Line where
  start : Vector2f
  end_ : Vector2f
deriving DecidableEq

/-- The struct `Light::Intersection`. `valid` is initialised to `false`; `param` and `angle` are
left uninitialised by the C++ code and are modelled as `0` (the code never reads either before
writing it). -/
structure Intersection where
  position : Vector2f := ⟨0, 0⟩
  param : ℚ := 0
  angle : ℚ := 0
  valid : Bool := false
deriving DecidableEq

instance : Inhabited Intersection := ⟨{}⟩

/-- The data members of `lit::Light` (without the shader). -/
structure Light where
  vertex : List Vertex := []
  lines : List Line := []
  vertices : List Vector2f := []
  position : Vector2f := ⟨0, 0⟩
  color : Color := ⟨255, 255, 255, 255⟩
  intensity : ℚ := 1
  energy : ℚ := 1
deriving DecidableEq

/-- The three libm functions `setPosition` calls, as functions on exact numbers. -/
structure Libm where
  atan2f : ℚ → ℚ → ℚ
  cosf : ℚ → ℚ
  sinf : ℚ → ℚ

/-- The comparator passed to `std::sort` in `setPosition`: `a.angle < b.angle`. -/
def angleLess (a b : Intersection) : Prop := a.angle < b.angle

instance : DecidableRel angleLess := fun a b => inferInstanceAs (Decidable (a.angle < b.angle))

/-- The contract of `std::sort(first, last, comp)` with `comp = angleLess`: the result is a
permutation of the input in which no later element compares less than an earlier one. The
algorithm itself is unspecified (and not stable). -/
structure StdSort where
  run : List Intersection → List Intersection
  perm : ∀ l, (run l).Perm l
  sorted : ∀ l, (run l).Pairwise (fun a b => ¬ angleLess b a)

/-! ## `Light::getIntersection` -/

/-- The function `Light::getIntersection` (light.cpp:248-273). -/
def getIntersection (ray segment : Line) : Intersection :=
  let ray_distance : Vector2f := ⟨ray.end_.x - ray.start.x, ray.end_.y - ray.start.y⟩
  let segment_distance : Vector2f :=
    ⟨segment.end_.x - segment.start.x, segment.end_.y - segment.start.y⟩
  let intersect : Intersection := {}
  if ray_distance.x * segment_distance.y = ray_distance.y * segment_distance.x then
    intersect
  else
    let param2 : ℚ :=
      (ray_distance.x * (segment.start.y - ray.start.y)
          + ray_distance.y * (ray.start.x - segment.start.x))
        / (segment_distance.x * ray_distance.y - segment_distance.y * ray_distance.x)
    let param1 : ℚ :=
      (segment_distance.x * (ray.start.y - segment.start.y)
          + segment_distance.y * (segment.start.x - ray.start.x))
        / (ray_distance.x * segment_distance.y - ray_distance.y * segment_distance.x)
    if param1 < 0 ∨ param2 < 0 ∨ param2 > 1 then
      intersect
    else
      { intersect with
        position := ⟨ray.start.x + ray_distance.x * param1, ray.start.y + ray_distance.y * param1⟩
        param := param1
        valid := true }

/-! ## Occluder bookkeeping -/

/-- The function `Light::findVertices` (light.cpp:229-246): collect both endpoints of every
line, then append to `vertices` each point that is not in it yet. `vertices` is not emptied
first. -/
def findVertices (s : Light) : Light :=
  let points : List Vector2f :=
    s.lines.foldl (fun points line => points ++ [line.start, line.end_]) []
  { s with
    vertices :=
      points.foldl (fun vertices point => if point ∈ vertices then vertices else vertices ++ [point])
        s.vertices }

/-- The default constructor `Light::Light()`. -/
def Light.new : Light := {}

/-- The constructor `Light::Light(std::vector<Line>&)` (light.cpp:10-18). -/
def Light.ofLines (_lines : List Line) : Light :=
  findVertices { Light.new with lines := _lines.foldl (fun lines line => lines ++ [line]) [] }

/-- The method `Light::clear` (light.cpp:97-101). -/
def clear (s : Light) : Light :=
  findVertices { s with lines := [] }

/-- The method `Light::addLine` (light.cpp:103-107). -/
def addLine (s : Light) (line : Line) : Light :=
  findVertices { s with lines := s.lines ++ [line] }

/-- The method `Light::removeLine` (light.cpp:109-113): erases element `index` of `vertices`
(not of `lines`) and calls `findVertices`. `vertices.erase(vertices.begin() + index)` is
undefined behaviour unless `0 ≤ index < vertices.size()`; that case is `none`. -/
def removeLine (s : Light) (index : Int) : Option Light :=
  if 0 ≤ index ∧ index < s.vertices.length then
    some (findVertices { s with vertices := s.vertices.eraseIdx index.toNat })
  else
    none

/-- The method `Light::getLine` (light.cpp:115-118): unchecked `lines[index]`; an index outside
the vector is undefined behaviour, modelled as `none`. -/
def getLine (s : Light) (index : Int) : Option Line :=
  if 0 ≤ index then s.lines[index.toNat]? else none

/-- The method `Light::getLinesCount` (light.cpp:120-123). -/
def getLinesCount (s : Light) : Int := s.lines.length

/-- The method `Light::getPosition`. -/
def getPosition (s : Light) : Vector2f := s.position

/-- The method `Light::setColor` (light.cpp:195-200), without the shader update. -/
def setColor (s : Light) (_color : Color) : Light :=
  { s with color := { _color with a := 255 } }

/-- The method `Light::setIntensity`, without the shader update. -/
def setIntensity (s : Light) (_intensity : ℚ) : Light := { s with intensity := _intensity }

/-- The method `Light::setEnergy`, without the shader update. -/
def setEnergy (s : Light) (_energy : ℚ) : Light := { s with energy := _energy }

/-! ## `Light::setPosition` -/

/-- The seven angles pushed for one vertex (light.cpp:133-139). -/
def jitter (angle : ℚ) : List ℚ :=
  [angle - 1 / 1000, angle - 1 / 10000, angle - 1 / 100000, angle,
   angle + 1 / 100000, angle + 1 / 10000, angle + 1 / 1000]

/-- The first loop of `setPosition` (light.cpp:129-140): the vector `angles`. -/
def castAngles (m : Libm) (position : Vector2f) (vertices : List Vector2f) : List ℚ :=
  vertices.foldl
    (fun angles vertice =>
      angles ++ jitter (m.atan2f (vertice.y - position.y) (vertice.x - position.x)))
    []

/-- The ray built for one angle (light.cpp:145-150). -/
def rayOf (m : Libm) (position : Vector2f) (angle : ℚ) : Line :=
  let distance : Vector2f := ⟨m.cosf angle, m.sinf angle⟩
  ⟨position, ⟨position.x + distance.x, position.y + distance.y⟩⟩

/-- One iteration of the inner loop over `lines` (light.cpp:155-160). -/
def closestStep (ray : Line) (closest_intersect : Intersection) (line : Line) : Intersection :=
  let intersect := getIntersection ray line
  if !intersect.valid then closest_intersect
  else if !closest_intersect.valid || decide (intersect.param < closest_intersect.param) then
    intersect
  else closest_intersect

/-- The inner loop of `setPosition` (light.cpp:152-161): `closest_intersect` for one ray. -/
def closestIntersect (ray : Line) (lines : List Line) : Intersection :=
  lines.foldl (closestStep ray) {}

/-- The second loop of `setPosition` (light.cpp:142-166): the vector `intersections` before
sorting. -/
def castRays (m : Libm) (position : Vector2f) (lines : List Line) (angles : List ℚ) :
    List Intersection :=
  angles.foldl
    (fun intersections angle =>
      let closest_intersect := closestIntersect (rayOf m position angle) lines
      if !closest_intersect.valid then intersections
      else intersections ++ [{ closest_intersect with angle := angle }])
    []

/-- The call `std::vector<sf::Vertex>::resize(n)`: keep the first `n` elements, pad with
default-constructed vertices. -/
def resize (vertex : List Vertex) (n : Nat) : List Vertex :=
  vertex.take n ++ List.replicate (n - vertex.length) default

/-- The two assignments `vertex[k].position = p; vertex[k].color = c;`. An index outside the
vector (undefined behaviour in C++; it does not occur in `setPosition`) leaves the list as is. -/
def assign : List Vertex → Nat → Vector2f → Color → List Vertex
  | [], _, _, _ => []
  | v :: vs, 0, p, c => { v with position := p, color := c } :: vs
  | v :: vs, k + 1, p, c => v :: assign vs k p c

/-- The loop `for (int i = 0; i < intersections.size(); i++)` (light.cpp:180-184), entered
with counter `i` and the intersections from index `i` on. -/
def fillHits (color : Color) : List Intersection → Nat → List Vertex → List Vertex
  | [], _, vertex => vertex
  | x :: xs, i, vertex => fillHits color xs (i + 1) (assign vertex (i + 1) x.position color)

/-- The intersections retained by `setPosition`, after `std::sort` (light.cpp:129-171). -/
def sortedIntersections (m : Libm) (srt : StdSort) (s : Light) (_position : Vector2f) :
    List Intersection :=
  srt.run (castRays m _position s.lines (castAngles m _position s.vertices))

/-- The method `Light::setPosition` (light.cpp:125-188). -/
def setPosition (m : Libm) (srt : StdSort) (s : Light) (_position : Vector2f) : Light :=
  let s1 : Light := { s with position := _position }
  let intersections := sortedIntersections m srt s _position
  match intersections with
  | [] => s1
  | first :: _ =>
    let vertex0 := resize s1.vertex (intersections.length + 1)
    let vertex1 := assign vertex0 0 s1.position s1.color
    let vertex2 := fillHits s1.color intersections 0 vertex1
    let vertex3 := assign vertex2 intersections.length first.position s1.color
    { s1 with vertex := vertex3 }

/-! ## Reachable states -/

/-- The states a client can reach through the public interface of `Light`. -/
inductive Reachable (m : Libm) (srt : StdSort) : Light → Prop
  | new : Reachable m srt Light.new
  | ofLines (ls : List Line) : Reachable m srt (Light.ofLines ls)
  | clear {s : Light} : Reachable m srt s → Reachable m srt (clear s)
  | addLine {s : Light} (l : Line) : Reachable m srt s → Reachable m srt (addLine s l)
  | removeLine {s s' : Light} (i : Int) :
      Reachable m srt s → removeLine s i = some s' → Reachable m srt s'
  | setPosition {s : Light} (p : Vector2f) :
      Reachable m srt s → Reachable m srt (setPosition m srt s p)
  | setColor {s : Light} (c : Color) : Reachable m srt s → Reachable m srt (setColor s c)
  | setIntensity {s : Light} (v : ℚ) : Reachable m srt s → Reachable m srt (setIntensity s v)
  | setEnergy {s : Light} (v : ℚ) : Reachable m srt s → Reachable m srt (setEnergy s v)

/-! ## A concrete instance of the library parameters, for evaluation -/

/-- An exact stand-in for libm: angles are measured along the unit diamond `|x| + |y| = 1`
instead of the unit circle, four units to the full turn. `atan2f y x` is the diamond angle of
`(x, y)` in `(-2, 2]`, and `(cosf a, sinf a)` is the point of the diamond at angle `a`. -/
def diamondLibm : Libm where
  atan2f y x :=
    if x = 0 ∧ y = 0 then 0
    else
      let t := y / (|x| + |y|)
      if 0 ≤ x then t else if 0 ≤ y then 2 - t else -2 - t
  cosf a :=
    let r := a - 4 * (⌊(a + 2) / 4⌋ : ℚ)
    1 - |r|
  sinf a :=
    let r := a - 4 * (⌊(a + 2) / 4⌋ : ℚ)
    if r < -1 then -2 - r else if r ≤ 1 then r else 2 - r

/-- An instance of the `std::sort` contract: insertion sort by angle. -/
def insertionStdSort : StdSort where
  run l := l.insertionSort (fun a b => a.angle ≤ b.angle)
  perm l := List.perm_insertionSort _ l
  sorted l := by
    haveI : IsTotal Intersection (fun a b => a.angle ≤ b.angle) :=
      ⟨fun a b => le_total a.angle b.angle⟩
    haveI : IsTrans Intersection (fun a b => a.angle ≤ b.angle) :=
      ⟨fun _ _ _ hab hbc => le_trans hab hbc⟩
    have h := List.sorted_insertionSort (fun a b : Intersection => a.angle ≤ b.angle) l
    exact h.imp (fun hab => not_lt.mpr hab)

/-! ## Vocabulary for the statements about `getIntersection` -/

/-- Statement vocabulary: the point of the ray's line at parameter `t` is the point of the
segment's line at parameter `u`. -/
def Meets (ray segment : Line) (t u : ℚ) : Prop :=
  ray.start.x + t * (ray.end_.x - ray.start.x)
      = segment.start.x + u * (segment.end_.x - segment.start.x) ∧
  ray.start.y + t * (ray.end_.y - ray.start.y)
      = segment.start.y + u * (segment.end_.y - segment.start.y)

/-- Statement vocabulary: the direction vectors of the two lines are parallel. -/
def Parallel (ray segment : Line) : Prop :=
  (ray.end_.x - ray.start.x) * (segment.end_.y - segment.start.y)
    = (ray.end_.y - ray.start.y) * (segment.end_.x - segment.start.x)

/-- The parameter `param1` computed by `getIntersection`. -/
def rayParam (ray segment : Line) : ℚ :=
  ((segment.end_.x - segment.start.x) * (ray.start.y - segment.start.y)
      + (segment.end_.y - segment.start.y) * (segment.start.x - ray.start.x))
    / ((ray.end_.x - ray.start.x) * (segment.end_.y - segment.start.y)
        - (ray.end_.y - ray.start.y) * (segment.end_.x - segment.start.x))

/-- The parameter `param2` computed by `getIntersection`. -/
def segParam (ray segment : Line) : ℚ :=
  ((ray.end_.x - ray.start.x) * (segment.start.y - ray.start.y)
      + (ray.end_.y - ray.start.y) * (ray.start.x - segment.start.x))
    / ((segment.end_.x - segment.start.x) * (ray.end_.y - ray.start.y)
        - (segment.end_.y - segment.start.y) * (ray.end_.x - ray.start.x))

/-! ## Vocabulary for the statements about `setPosition` -/

/-- Statement vocabulary: the ray cast at `angle` has a valid intersection with at least one
of the lines. -/
def rayHits (m : Libm) (position : Vector2f) (lines : List Line) (angle : ℚ) : Bool :=
  lines.any (fun line => (getIntersection (rayOf m position angle) line).valid)

/-- Statement vocabulary: the number of cast rays that have a valid intersection. -/
def validRayCount (m : Libm) (s : Light) (position : Vector2f) : Nat :=
  (castAngles m position s.vertices).countP (rayHits m position s.lines)

/-- Statement vocabulary: the intersections retained by `setPosition` before sorting. -/
def retained (m : Libm) (s : Light) (position : Vector2f) : List Intersection :=
  castRays m position s.lines (castAngles m position s.vertices)

/-- Sample occluder: the segment from `(1, -1)` to `(1, 1)`. -/
def wall : Line := ⟨⟨1, -1⟩, ⟨1, 1⟩⟩

/-- Proof vocabulary: the effect of the fill loop on the part of the vector behind element 0: the first
`xs.length` vertices take the hit positions and the light color. -/
def paint (c : Color) : List Intersection → List Vertex → List Vertex
  | x :: xs, v :: vs => { v with position := x.position, color := c } :: paint c xs vs
  | _, vs => vs

/-- Proof vocabulary: the body of the ray loop for one angle, as the optional element it
pushes onto `intersections`. -/
def castOne (m : Libm) (position : Vector2f) (lines : List Line) (angle : ℚ) :
    Option Intersection :=
  let closest_intersect := closestIntersect (rayOf m position angle) lines
  if closest_intersect.valid then some { closest_intersect with angle := angle } else none

/-- Statement vocabulary: at least one ray cast by `setPosition` from `position` has a valid
intersection with one of the light's lines. -/
def SomeRayHits (m : Libm) (s : Light) (position : Vector2f) : Prop :=
  ∃ angle ∈ castAngles m position s.vertices, ∃ line ∈ s.lines,
    (getIntersection (rayOf m position angle) line).valid = true

/-- Sample light: constructed with the single occluder `wall`. -/
def wallLight : Light := Light.ofLines [wall]

/-- Sample state: `wallLight` after `setPosition` at the origin and then `clear`. -/
def clearedLight : Light :=
  clear (setPosition diamondLibm insertionStdSort wallLight ⟨0, 0⟩)

/-- Sample light: constructed with two occluders, `wall` and the segment from `(3, -1)` to
`(3, 1)`. -/
def twoWalls : Light := Light.ofLines [wall, ⟨⟨3, -1⟩, ⟨3, 1⟩⟩]

/-! ## Vocabulary for the statements about the vertex set -/

/-- Proof vocabulary: the second loop of `findVertices`, appending to `vertices` each of
`points` that is not in it yet. -/
def addMissing (vertices points : List Vector2f) : List Vector2f :=
  points.foldl (fun vertices point => if point ∈ vertices then vertices else vertices ++ [point])
    vertices

/-- Statement vocabulary, following the rebuild algorithm of the specification: starting from
an empty vertex set, iterate all segment endpoints (start, then end) in segment-insertion
order and append each one that is not present yet. -/
def rebuiltVertices (lines : List Line) : List Vector2f :=
  addMissing [] (lines.flatMap (fun line => [line.start, line.end_]))

/-- Sample state: `wallLight` after `clear` and then `addLine` of the segment from `(3, -1)`
to `(3, 1)`. -/
def reusedLight : Light := addLine (clear wallLight) ⟨⟨3, -1⟩, ⟨3, 1⟩⟩

/-- Proof vocabulary: the invariant of the inner loop of `setPosition`. After the lines `seen`
have been tested against `ray`, `closest_intersect` is either still invalid, and no line seen
gave a valid intersection, or it is the valid intersection with one of them and no valid
intersection seen has a smaller `param`. -/
def NearestAmong (ray : Line) (seen : List Line) (closest_intersect : Intersection) : Prop :=
  (closest_intersect.valid = false ∧
      ∀ line ∈ seen, (getIntersection ray line).valid = false) ∨
  (closest_intersect.valid = true ∧
      (∃ line ∈ seen, closest_intersect = getIntersection ray line) ∧
      ∀ line ∈ seen, (getIntersection ray line).valid = true →
        closest_intersect.param ≤ (getIntersection ray line).param)

/-- Proof vocabulary: the writes of `setPosition` into the resized vector (light.cpp:177-187)
for the sorted intersections `first :: rest`. -/
def writePolygon (color : Color) (position : Vector2f) (first : Intersection)
    (rest : List Intersection) (vertex0 : List Vertex) : List Vertex :=
  assign (fillHits color (first :: rest) 0 (assign vertex0 0 position color))
    (first :: rest).length first.position color

/-- Sample state: `wallLight` after `setPosition` at the origin; its cached polygon has nine
elements. -/
def litWallLight : Light := setPosition diamondLibm insertionStdSort wallLight ⟨0, 0⟩

/-! ## Vocabulary for the statements about the single wall -/

/-- Statement vocabulary: the direction `(cosf a, sinf a)` points from the origin at the
segment from `(1, -1)` to `(1, 1)`. -/
def AimsAtWall (m : Libm) (a : ℚ) : Prop :=
  0 < m.cosf a ∧ -m.cosf a ≤ m.sinf a ∧ m.sinf a ≤ m.cosf a

instance (m : Libm) (a : ℚ) : Decidable (AimsAtWall m a) :=
  inferInstanceAs (Decidable (0 < m.cosf a ∧ -m.cosf a ≤ m.sinf a ∧ m.sinf a ≤ m.cosf a))

/-- Statement vocabulary: of the rays cast from the origin for `wall`, those at the angle of
an endpoint and those jittered toward the inside of the segment, in cast order. -/
def wallInnerAngles (m : Libm) : List ℚ :=
  [m.atan2f (-1) 1, m.atan2f (-1) 1 + 1 / 100000, m.atan2f (-1) 1 + 1 / 10000,
   m.atan2f (-1) 1 + 1 / 1000,
   m.atan2f 1 1 - 1 / 1000, m.atan2f 1 1 - 1 / 10000, m.atan2f 1 1 - 1 / 100000,
   m.atan2f 1 1]

/-- Statement vocabulary: of the rays cast from the origin for `wall`, those jittered away
from the segment, past one of its endpoints. -/
def wallOuterAngles (m : Libm) : List ℚ :=
  [m.atan2f (-1) 1 - 1 / 1000, m.atan2f (-1) 1 - 1 / 10000, m.atan2f (-1) 1 - 1 / 100000,
   m.atan2f 1 1 + 1 / 100000, m.atan2f 1 1 + 1 / 10000, m.atan2f 1 1 + 1 / 1000]

/-! ## A binary32 reading of the per-ray code

The definitions above read `float` as an exact rational. The ones below read it as IEEE 754
binary32 with round-to-nearest-even, infinities and NaN, every operation rounding once (no
extended precision, no fused multiply-add). They cover `getIntersection` and the ray loop of
`setPosition`. The sign of zero is not modelled: it could show only in a division by zero,
which `getIntersection` performs on no finite input that passes its parallel test. -/

/-- A value of the C++ type `float`: a finite number, an infinity (negative or not) or NaN. -/
inductive F32 where
  | fin (q : ℚ)
  | inf (negative : Bool)
  | nan
deriving DecidableEq

/-- The power `2 ^ e` for an integer exponent `e`. -/
def F32.pow2 (e : Int) : ℚ :=
  if 0 ≤ e then ((2 ^ e.toNat : Nat) : ℚ) else 1 / ((2 ^ (-e).toNat : Nat) : ℚ)

/-- The number of binary digits of `n`, computed with `fuel` halvings at most. -/
def F32.bitLengthAux : Nat → Nat → Nat
  | 0, _ => 0
  | fuel + 1, n => if n = 0 then 0 else F32.bitLengthAux fuel (n / 2) + 1

/-- The number of binary digits of `n`: `⌊log₂ n⌋ + 1` for `n ≥ 1`. -/
def F32.bitLength (n : Nat) : Nat := F32.bitLengthAux n n

/-- The exponent `⌊log₂ q⌋` of a positive rational `q`: the difference of the bit lengths of
numerator and denominator, or one less. -/
def F32.ilog2 (q : ℚ) : Int :=
  let e0 : Int := (F32.bitLength q.num.natAbs : Int) - (F32.bitLength q.den : Int)
  if q < F32.pow2 e0 then e0 - 1 else e0

/-- The nearest integer to `n`, ties to the even one. -/
def F32.roundHalfEven (n : ℚ) : Int :=
  let f : Int := ⌊n⌋
  if n - f < 1 / 2 then f
  else if 1 / 2 < n - f then f + 1
  else if f % 2 = 0 then f else f + 1

/-- Rounding of an exact result to binary32, to nearest, ties to even: 24 significant bits,
least normal exponent `-126` with subnormals below it, and overflow to infinity when the
rounded magnitude reaches `2 ^ 128`. -/
def F32.round (q : ℚ) : F32 :=
  if q = 0 then .fin 0
  else
    let e : Int := max (F32.ilog2 |q|) (-126)
    let ulp : ℚ := F32.pow2 (e - 23)
    let r : ℚ := (F32.roundHalfEven (|q| / ulp) : ℚ) * ulp
    if F32.pow2 128 ≤ r then .inf (decide (q < 0))
    else .fin (if q < 0 then -r else r)

/-- The sign bit of a finite value, zero counting as positive. -/
def F32.isNeg (q : ℚ) : Bool := decide (q < 0)

/-- Negation of a `float`. -/
def F32.neg : F32 → F32
  | .fin a => .fin (-a)
  | .inf n => .inf (!n)
  | .nan => .nan

/-- Addition of two `float`s. -/
def F32.add : F32 → F32 → F32
  | .fin a, .fin b => F32.round (a + b)
  | .fin _, .inf n => .inf n
  | .inf n, .fin _ => .inf n
  | .inf n, .inf k => if n = k then .inf n else .nan
  | _, _ => .nan

/-- Subtraction of two `float`s. -/
def F32.sub (a b : F32) : F32 := F32.add a (F32.neg b)

/-- Multiplication of two `float`s. -/
def F32.mul : F32 → F32 → F32
  | .fin a, .fin b => F32.round (a * b)
  | .fin a, .inf n => if a = 0 then .nan else .inf (xor (F32.isNeg a) n)
  | .inf n, .fin b => if b = 0 then .nan else .inf (xor n (F32.isNeg b))
  | .inf n, .inf k => .inf (xor n k)
  | _, _ => .nan

/-- Division of two `float`s. -/
def F32.div : F32 → F32 → F32
  | .fin a, .fin b =>
    if b = 0 then (if a = 0 then .nan else .inf (F32.isNeg a)) else F32.round (a / b)
  | .fin _, .inf _ => .fin 0
  | .inf n, .fin b => .inf (xor n (F32.isNeg b))
  | _, _ => .nan

/-- The comparison `a < b` of two `float`s; false when either is NaN. -/
def F32.lt : F32 → F32 → Bool
  | .fin a, .fin b => decide (a < b)
  | .fin _, .inf n => !n
  | .inf n, .fin _ => n
  | .inf n, .inf k => n && !k
  | _, _ => false

/-- The comparison `a <= b` of two `float`s; false when either is NaN. -/
def F32.le : F32 → F32 → Bool
  | .fin a, .fin b => decide (a ≤ b)
  | .fin _, .inf n => !n
  | .inf n, .fin _ => n
  | .inf n, .inf k => n || !k
  | _, _ => false

/-- The comparison `a == b` of two `float`s; false when either is NaN. -/
def F32.eq : F32 → F32 → Bool
  | .fin a, .fin b => decide (a = b)
  | .inf n, .inf k => n == k
  | _, _ => false

instance : Add F32 := ⟨F32.add⟩

instance : Sub F32 := ⟨F32.sub⟩

instance : Mul F32 := ⟨F32.mul⟩

instance : Div F32 := ⟨F32.div⟩

/-- The SFML type `sf::Vector2f` over binary32. -/
structure Binary32.Vector2f where
  x : F32 := .fin 0
  y : F32 := .fin 0
deriving DecidableEq

/-- The struct `lit::Line` over binary32. -/
structure Binary32.Line where
  start : Binary32.Vector2f
  end_ : Binary32.Vector2f
deriving DecidableEq

/-- The struct `Light::Intersection` over binary32; the uninitialised members `param` and
`angle` are modelled as `0`. -/
structure Binary32.Intersection where
  position : Binary32.Vector2f := {}
  param : F32 := .fin 0
  angle : F32 := .fin 0
  valid : Bool := false
deriving DecidableEq

/-- The two libm functions the ray loop calls, on binary32 values. -/
structure Binary32.Libm where
  cosf : F32 → F32
  sinf : F32 → F32

/-- The function `Light::getIntersection` (light.cpp:248-273) in binary32 arithmetic. -/
def Binary32.getIntersection (ray segment : Binary32.Line) : Binary32.Intersection :=
  let ray_distance : Binary32.Vector2f :=
    ⟨ray.end_.x - ray.start.x, ray.end_.y - ray.start.y⟩
  let segment_distance : Binary32.Vector2f :=
    ⟨segment.end_.x - segment.start.x, segment.end_.y - segment.start.y⟩
  let intersect : Binary32.Intersection := {}
  if F32.eq (ray_distance.x * segment_distance.y) (ray_distance.y * segment_distance.x) then
    intersect
  else
    let param2 : F32 :=
      (ray_distance.x * (segment.start.y - ray.start.y)
          + ray_distance.y * (ray.start.x - segment.start.x))
        / (segment_distance.x * ray_distance.y - segment_distance.y * ray_distance.x)
    let param1 : F32 :=
      (segment_distance.x * (ray.start.y - segment.start.y)
          + segment_distance.y * (segment.start.x - ray.start.x))
        / (ray_distance.x * segment_distance.y - ray_distance.y * segment_distance.x)
    if F32.lt param1 (.fin 0) || F32.lt param2 (.fin 0) || F32.lt (.fin 1) param2 then
      intersect
    else
      { intersect with
        position := ⟨ray.start.x + ray_distance.x * param1, ray.start.y + ray_distance.y * param1⟩
        param := param1
        valid := true }

/-- The ray built for one angle (light.cpp:145-150) in binary32 arithmetic. -/
def Binary32.rayOf (m : Binary32.Libm) (position : Binary32.Vector2f) (angle : F32) :
    Binary32.Line :=
  let distance : Binary32.Vector2f := ⟨m.cosf angle, m.sinf angle⟩
  ⟨position, ⟨position.x + distance.x, position.y + distance.y⟩⟩

/-- One iteration of the inner loop over `lines` (light.cpp:155-160) in binary32
arithmetic. -/
def Binary32.closestStep (ray : Binary32.Line) (closest_intersect : Binary32.Intersection)
    (line : Binary32.Line) : Binary32.Intersection :=
  let intersect := Binary32.getIntersection ray line
  if !intersect.valid then closest_intersect
  else if !closest_intersect.valid || F32.lt intersect.param closest_intersect.param then
    intersect
  else closest_intersect

/-- The inner loop of `setPosition` (light.cpp:152-161) in binary32 arithmetic. -/
def Binary32.closestIntersect (ray : Binary32.Line) (lines : List Binary32.Line) :
    Binary32.Intersection :=
  lines.foldl (Binary32.closestStep ray) {}

/-- The second loop of `setPosition` (light.cpp:142-166) in binary32 arithmetic. -/
def Binary32.castRays (m : Binary32.Libm) (position : Binary32.Vector2f)
    (lines : List Binary32.Line) (angles : List F32) : List Binary32.Intersection :=
  angles.foldl
    (fun intersections angle =>
      let closest_intersect :=
        Binary32.closestIntersect (Binary32.rayOf m position angle) lines
      if !closest_intersect.valid then intersections
      else intersections ++ [{ closest_intersect with angle := angle }])
    []

/-- Values of libm at angle `0`, where `cosf` is exactly `1` and `sinf` exactly `0`; no value
is supplied at other angles (NaN). -/
def Binary32.axisLibm : Binary32.Libm where
  cosf a := if a = .fin 0 then .fin 1 else .nan
  sinf a := if a = .fin 0 then .fin 0 else .nan

/-- Sample occluder: the segment from `(2, -2^127)` to `(2, 2^127)`; both ordinates are
binary32 values, their difference `2^128` is not. -/
def Binary32.bigWall : Binary32.Line :=
  ⟨⟨.fin 2, .fin (-F32.pow2 127)⟩, ⟨.fin 2, .fin (F32.pow2 127)⟩⟩

/-- Sample occluder: the segment from `(1, 0)` to `(1, 1)`. -/
def Binary32.nearWall : Binary32.Line := ⟨⟨.fin 1, .fin 0⟩, ⟨.fin 1, .fin 1⟩⟩

/-- Sample occluder: the segment from `(3, -1)` to `(3, 1)`. -/
def Binary32.farWall : Binary32.Line := ⟨⟨.fin 3, .fin (-1)⟩, ⟨.fin 3, .fin 1⟩⟩

/-- Proof vocabulary: the invariant of the inner loop in binary32 arithmetic. After the lines
`seen` have been tested against `ray`, `closest_intersect` is either still invalid, and no
line seen gave a valid intersection, or it is the valid intersection with one of them and is
`<=` every valid intersection seen. -/
def Binary32.NearestAmong (ray : Binary32.Line) (seen : List Binary32.Line)
    (closest_intersect : Binary32.Intersection) : Prop :=
  (closest_intersect.valid = false ∧
      ∀ line ∈ seen, (Binary32.getIntersection ray line).valid = false) ∨
  (closest_intersect.valid = true ∧
      (∃ line ∈ seen, closest_intersect = Binary32.getIntersection ray line) ∧
      ∀ line ∈ seen, (Binary32.getIntersection ray line).valid = true →
        F32.le closest_intersect.param (Binary32.getIntersection ray line).param = true)

/-! # Theorems -/

/-! ## `getIntersection` -/

theorem getIntersection_parallel {ray segment : Line} (h : Parallel ray segment) :
    getIntersection ray segment = {} := by
  unfold Parallel at h
  simp [getIntersection, h]

theorem getIntersection_eq {ray segment : Line} (h : ¬ Parallel ray segment) :
    getIntersection ray segment =
      if rayParam ray segment < 0 ∨ segParam ray segment < 0 ∨ segParam ray segment > 1 then {}
      else
        { position := ⟨ray.start.x + (ray.end_.x - ray.start.x) * rayParam ray segment,
                       ray.start.y + (ray.end_.y - ray.start.y) * rayParam ray segment⟩
          param := rayParam ray segment
          angle := 0
          valid := true } := by
  unfold Parallel at h
  simp only [getIntersection, if_neg h, rayParam, segParam]

theorem meets_params {ray segment : Line} (h : ¬ Parallel ray segment) :
    Meets ray segment (rayParam ray segment) (segParam ray segment) := by
  unfold Parallel at h
  have hd : (ray.end_.x - ray.start.x) * (segment.end_.y - segment.start.y)
        - (ray.end_.y - ray.start.y) * (segment.end_.x - segment.start.x) ≠ 0 :=
    sub_ne_zero.mpr h
  have hd' : (segment.end_.x - segment.start.x) * (ray.end_.y - ray.start.y)
        - (segment.end_.y - segment.start.y) * (ray.end_.x - ray.start.x) ≠ 0 := by
    intro h0; apply hd; linear_combination -h0
  unfold Meets rayParam segParam
  constructor
  · field_simp
    ring
  · field_simp
    ring

theorem meets_unique {ray segment : Line} (h : ¬ Parallel ray segment) {t u : ℚ}
    (hm : Meets ray segment t u) : t = rayParam ray segment ∧ u = segParam ray segment := by
  unfold Parallel at h
  have hd : (ray.end_.x - ray.start.x) * (segment.end_.y - segment.start.y)
        - (ray.end_.y - ray.start.y) * (segment.end_.x - segment.start.x) ≠ 0 :=
    sub_ne_zero.mpr h
  have hd' : (segment.end_.x - segment.start.x) * (ray.end_.y - ray.start.y)
        - (segment.end_.y - segment.start.y) * (ray.end_.x - ray.start.x) ≠ 0 := by
    intro h0; apply hd; linear_combination -h0
  obtain ⟨hx, hy⟩ := hm
  unfold rayParam segParam
  constructor
  · rw [eq_div_iff hd]
    linear_combination (segment.end_.y - segment.start.y) * hx
      - (segment.end_.x - segment.start.x) * hy
  · rw [eq_div_iff hd']
    linear_combination (ray.end_.x - ray.start.x) * hy - (ray.end_.y - ray.start.y) * hx

theorem valid_iff (ray segment : Line) :
    (getIntersection ray segment).valid = true ↔
      ¬ Parallel ray segment ∧ 0 ≤ rayParam ray segment ∧
        0 ≤ segParam ray segment ∧ segParam ray segment ≤ 1 := by
  by_cases h : Parallel ray segment
  · simp [getIntersection_parallel h, h]
  · rw [getIntersection_eq h]
    split_ifs with hc
    · simp only [h, not_false_eq_true, true_and]
      constructor
      · intro hv; simp at hv
      · rintro ⟨h1, h2, h3⟩
        rcases hc with hc | hc | hc <;> linarith
    · simp only [h, not_false_eq_true, true_and, true_iff]
      push_neg at hc
      exact ⟨hc.1, hc.2.1, hc.2.2⟩

/-- C1: `getIntersection` reports a valid intersection exactly when the two directions are
not parallel and the solution `(t, u)` of `ray.start + t * d_r = segment.start + u * d_s`
(unique in that case) has `0 ≤ t` and `0 ≤ u ≤ 1`; a zero-length segment is never hit, and a
hit at ray parameter `0` is accepted. -/
theorem getIntersection_valid_iff (ray segment : Line) :
    ((getIntersection ray segment).valid = true ↔
      ¬ Parallel ray segment ∧
        ∃ t u : ℚ, Meets ray segment t u ∧ 0 ≤ t ∧ 0 ≤ u ∧ u ≤ 1) ∧
    (¬ Parallel ray segment →
      ∃ t u : ℚ, Meets ray segment t u ∧
        ∀ t' u' : ℚ, Meets ray segment t' u' → t' = t ∧ u' = u) ∧
    (segment.start = segment.end_ → (getIntersection ray segment).valid = false) ∧
    (∀ u : ℚ, ¬ Parallel ray segment → Meets ray segment 0 u → 0 ≤ u → u ≤ 1 →
      (getIntersection ray segment).valid = true ∧ (getIntersection ray segment).param = 0) := by
  refine ⟨?_, ?_, ?_, ?_⟩
  · rw [valid_iff]
    constructor
    · rintro ⟨hp, h1, h2, h3⟩
      exact ⟨hp, _, _, meets_params hp, h1, h2, h3⟩
    · rintro ⟨hp, t, u, hm, h1, h2, h3⟩
      obtain ⟨ht, hu⟩ := meets_unique hp hm
      subst ht hu
      exact ⟨hp, h1, h2, h3⟩
  · intro hp
    exact ⟨_, _, meets_params hp, fun t' u' hm => meets_unique hp hm⟩
  · intro hz
    have hp : Parallel ray segment := by
      unfold Parallel
      rw [hz]
      ring
    rw [getIntersection_parallel hp]
  · intro u hp hm h0 h1
    obtain ⟨ht, hu⟩ := meets_unique hp hm
    have hv : (getIntersection ray segment).valid = true :=
      (valid_iff ray segment).mpr ⟨hp, ht ▸ le_refl _, hu ▸ h0, hu ▸ h1⟩
    refine ⟨hv, ?_⟩
    rw [getIntersection_eq hp]
    split_ifs with hc
    · rfl
    · exact ht.symm

/-- C2: when `getIntersection` reports a valid intersection, `param` is the ray parameter of
the crossing and is non-negative, `position` is `ray.start + d_r * param`, and the same point
is `segment.start + s * d_s` for some `0 ≤ s ≤ 1`. -/
theorem getIntersection_valid_hit (ray segment : Line)
    (hv : (getIntersection ray segment).valid = true) :
    0 ≤ (getIntersection ray segment).param ∧
    (∀ t u : ℚ, Meets ray segment t u → t = (getIntersection ray segment).param) ∧
    (getIntersection ray segment).position =
      ⟨ray.start.x + (ray.end_.x - ray.start.x) * (getIntersection ray segment).param,
       ray.start.y + (ray.end_.y - ray.start.y) * (getIntersection ray segment).param⟩ ∧
    ∃ s : ℚ, 0 ≤ s ∧ s ≤ 1 ∧
      (getIntersection ray segment).position =
        ⟨segment.start.x + s * (segment.end_.x - segment.start.x),
         segment.start.y + s * (segment.end_.y - segment.start.y)⟩ := by
  obtain ⟨hp, h1, h2, h3⟩ := (valid_iff ray segment).mp hv
  have hc : ¬ (rayParam ray segment < 0 ∨ segParam ray segment < 0 ∨ segParam ray segment > 1) := by
    push_neg
    exact ⟨h1, h2, h3⟩
  have he := getIntersection_eq hp
  rw [if_neg hc] at he
  rw [he]
  refine ⟨h1, fun t u hm => (meets_unique hp hm).1, rfl, segParam ray segment, h2, h3, ?_⟩
  obtain ⟨hx, hy⟩ := meets_params hp
  simp only [Vector2f.mk.injEq]
  constructor
  · rw [← hx]; ring
  · rw [← hy]; ring

/-- Witness for C2: the ray from `(0,0)` through `(1,1)` meets the segment from `(0,2)` to
`(2,0)`. -/
theorem getIntersection_valid_hit_witness :
    (getIntersection ⟨⟨0, 0⟩, ⟨1, 1⟩⟩ ⟨⟨0, 2⟩, ⟨2, 0⟩⟩).valid = true ∧
    (0 ≤ (getIntersection ⟨⟨0, 0⟩, ⟨1, 1⟩⟩ ⟨⟨0, 2⟩, ⟨2, 0⟩⟩).param ∧
    (∀ t u : ℚ, Meets ⟨⟨0, 0⟩, ⟨1, 1⟩⟩ ⟨⟨0, 2⟩, ⟨2, 0⟩⟩ t u →
      t = (getIntersection ⟨⟨0, 0⟩, ⟨1, 1⟩⟩ ⟨⟨0, 2⟩, ⟨2, 0⟩⟩).param) ∧
    (getIntersection ⟨⟨0, 0⟩, ⟨1, 1⟩⟩ ⟨⟨0, 2⟩, ⟨2, 0⟩⟩).position =
      ⟨(0 : ℚ) + (1 - 0) * (getIntersection ⟨⟨0, 0⟩, ⟨1, 1⟩⟩ ⟨⟨0, 2⟩, ⟨2, 0⟩⟩).param,
       (0 : ℚ) + (1 - 0) * (getIntersection ⟨⟨0, 0⟩, ⟨1, 1⟩⟩ ⟨⟨0, 2⟩, ⟨2, 0⟩⟩).param⟩ ∧
    ∃ s : ℚ, 0 ≤ s ∧ s ≤ 1 ∧
      (getIntersection ⟨⟨0, 0⟩, ⟨1, 1⟩⟩ ⟨⟨0, 2⟩, ⟨2, 0⟩⟩).position =
        ⟨(0 : ℚ) + s * (2 - 0), (2 : ℚ) + s * (0 - 2)⟩) :=
  ⟨by decide!, getIntersection_valid_hit ⟨⟨0, 0⟩, ⟨1, 1⟩⟩ ⟨⟨0, 2⟩, ⟨2, 0⟩⟩ (by decide!)⟩

/-! ## Vector writes -/

theorem length_assign (v : List Vertex) (k : Nat) (p : Vector2f) (c : Color) :
    (assign v k p c).length = v.length := by
  induction v generalizing k with
  | nil => rfl
  | cons w ws ih =>
    cases k with
    | zero => rfl
    | succ k => simp [assign, ih]

theorem map_position_assign (v : List Vertex) (k : Nat) (p : Vector2f) (c : Color) :
    (assign v k p c).map (fun w => w.position) = (v.map (fun w => w.position)).set k p := by
  induction v generalizing k with
  | nil => rfl
  | cons w ws ih =>
    cases k with
    | zero => rfl
    | succ k => simp [assign, ih]

theorem fillHits_nil (c : Color) (xs : List Intersection) (i : Nat) :
    fillHits c xs i [] = [] := by
  induction xs generalizing i with
  | nil => rfl
  | cons x xs ih => simp [fillHits, assign, ih]

theorem fillHits_succ_cons (c : Color) (xs : List Intersection) (k : Nat) (v : Vertex)
    (vs : List Vertex) : fillHits c xs (k + 1) (v :: vs) = v :: fillHits c xs k vs := by
  induction xs generalizing k vs with
  | nil => rfl
  | cons x xs ih => simp [fillHits, assign, ih]

theorem fillHits_zero_cons (c : Color) (xs : List Intersection) (v : Vertex)
    (vs : List Vertex) : fillHits c xs 0 (v :: vs) = v :: paint c xs vs := by
  induction xs generalizing v vs with
  | nil => cases vs <;> rfl
  | cons x xs ih =>
    cases vs with
    | nil => simp [fillHits, assign, fillHits_succ_cons, fillHits_nil, paint]
    | cons w ws => simp [fillHits, assign, fillHits_succ_cons, ih, paint]

theorem length_paint (c : Color) (xs : List Intersection) (vs : List Vertex) :
    (paint c xs vs).length = vs.length := by
  induction xs generalizing vs with
  | nil => cases vs <;> rfl
  | cons x xs ih =>
    cases vs with
    | nil => rfl
    | cons w ws => simp [paint, ih]

theorem map_position_paint (c : Color) (xs : List Intersection) (vs : List Vertex)
    (h : xs.length = vs.length) :
    (paint c xs vs).map (fun w => w.position) = xs.map (fun x => x.position) := by
  induction xs generalizing vs with
  | nil =>
    cases vs with
    | nil => rfl
    | cons w ws => simp at h
  | cons x xs ih =>
    cases vs with
    | nil => simp at h
    | cons w ws =>
      simp only [List.length_cons, Nat.add_right_cancel_iff] at h
      simp [paint, ih ws h]

theorem length_resize (v : List Vertex) (n : Nat) : (resize v n).length = n := by
  simp only [resize, List.length_append, List.length_take, List.length_replicate]
  omega

theorem set_length_pred {α : Type} (l : List α) (a : α) (h : l ≠ []) :
    l.set (l.length - 1) a = l.dropLast ++ [a] := by
  induction l with
  | nil => exact absurd rfl h
  | cons x xs ih =>
    cases xs with
    | nil => rfl
    | cons y ys =>
      have := ih (by simp)
      simp only [List.length_cons, Nat.add_sub_cancel] at this ⊢
      simp [List.set, List.dropLast, this]

/-! ## The ray loop -/

theorem castRays_foldl (m : Libm) (p : Vector2f) (lines : List Line) (angles : List ℚ)
    (init : List Intersection) :
    angles.foldl
        (fun intersections angle =>
          let closest_intersect := closestIntersect (rayOf m p angle) lines
          if !closest_intersect.valid then intersections
          else intersections ++ [{ closest_intersect with angle := angle }])
        init
      = init ++ angles.filterMap (castOne m p lines) := by
  induction angles generalizing init with
  | nil => simp
  | cons a as ih =>
    rw [List.foldl_cons, ih]
    by_cases hv : (closestIntersect (rayOf m p a) lines).valid = true
    · simp [castOne, hv]
    · simp [castOne, hv]

theorem castRays_eq_filterMap (m : Libm) (p : Vector2f) (lines : List Line)
    (angles : List ℚ) : castRays m p lines angles = angles.filterMap (castOne m p lines) := by
  unfold castRays
  rw [castRays_foldl]
  rfl

theorem closestStep_valid (ray : Line) (acc : Intersection) (line : Line) :
    (closestStep ray acc line).valid = (acc.valid || (getIntersection ray line).valid) := by
  unfold closestStep
  by_cases h1 : (getIntersection ray line).valid = true
  · by_cases h2 : acc.valid = true
    · by_cases h3 : (getIntersection ray line).param < acc.param <;> simp [h1, h2, h3]
    · simp [h1, h2]
  · simp [h1]

theorem foldl_closestStep_valid (ray : Line) (lines : List Line) (acc : Intersection) :
    (lines.foldl (closestStep ray) acc).valid
      = (acc.valid || lines.any (fun line => (getIntersection ray line).valid)) := by
  induction lines generalizing acc with
  | nil => simp
  | cons l ls ih =>
    rw [List.foldl_cons, ih, closestStep_valid]
    simp [Bool.or_assoc]

theorem closestIntersect_valid (ray : Line) (lines : List Line) :
    (closestIntersect ray lines).valid
      = lines.any (fun line => (getIntersection ray line).valid) := by
  unfold closestIntersect
  rw [foldl_closestStep_valid]
  rfl

theorem castOne_isSome (m : Libm) (p : Vector2f) (lines : List Line) (a : ℚ) :
    (castOne m p lines a).isSome = rayHits m p lines a := by
  unfold castOne rayHits
  rw [← closestIntersect_valid]
  by_cases h : (closestIntersect (rayOf m p a) lines).valid = true <;> simp [h]

theorem length_filterMap_eq_countP {α β : Type} (f : α → Option β) (l : List α) :
    (l.filterMap f).length = l.countP (fun a => (f a).isSome) := by
  induction l with
  | nil => rfl
  | cons a as ih =>
    cases h : f a with
    | none => simp [List.filterMap_cons, h, ih]
    | some b => simp [List.filterMap_cons, h, ih]

theorem length_retained (m : Libm) (s : Light) (p : Vector2f) :
    (retained m s p).length = validRayCount m s p := by
  unfold retained validRayCount
  rw [castRays_eq_filterMap, length_filterMap_eq_countP]
  congr 1
  funext a
  exact castOne_isSome m p s.lines a

theorem length_sortedIntersections (m : Libm) (srt : StdSort) (s : Light) (p : Vector2f) :
    (sortedIntersections m srt s p).length = validRayCount m s p := by
  rw [← length_retained]
  exact (srt.perm _).length_eq

theorem validRayCount_pos_iff (m : Libm) (s : Light) (p : Vector2f) :
    0 < validRayCount m s p ↔
      ∃ angle ∈ castAngles m p s.vertices, ∃ line ∈ s.lines,
        (getIntersection (rayOf m p angle) line).valid = true := by
  unfold validRayCount
  rw [List.countP_pos_iff]
  simp [rayHits]

/-! ## The polygon written by `setPosition` -/

theorem setPosition_of_nil (m : Libm) (srt : StdSort) (s : Light) (p : Vector2f)
    (h : sortedIntersections m srt s p = []) :
    setPosition m srt s p = { s with position := p } := by
  unfold setPosition
  simp only [h]

theorem setPosition_vertex_of_cons (m : Libm) (srt : StdSort) (s : Light) (p : Vector2f)
    (first : Intersection) (rest : List Intersection)
    (h : sortedIntersections m srt s p = first :: rest) :
    (setPosition m srt s p).vertex =
      assign
        (fillHits s.color (first :: rest) 0
          (assign (resize s.vertex ((first :: rest).length + 1)) 0 p s.color))
        (first :: rest).length first.position s.color := by
  unfold setPosition
  simp only [h]

theorem setPosition_vertex_positions (m : Libm) (srt : StdSort) (s : Light) (p : Vector2f)
    (first : Intersection) (rest : List Intersection)
    (h : sortedIntersections m srt s p = first :: rest) :
    (setPosition m srt s p).vertex.map (fun w => w.position) =
      p :: (((first :: rest).dropLast).map (fun x => x.position) ++ [first.position]) := by
  rw [setPosition_vertex_of_cons m srt s p first rest h]
  have hlen := length_resize s.vertex ((first :: rest).length + 1)
  generalize resize s.vertex ((first :: rest).length + 1) = v0 at hlen
  cases v0 with
  | nil => simp at hlen
  | cons w ws =>
    have hws : (first :: rest).length = ws.length := by
      simp only [List.length_cons] at hlen ⊢
      omega
    simp only [assign, fillHits_zero_cons]
    rw [List.map_cons, map_position_assign, map_position_paint _ _ _ hws]
    have hne : (first :: rest).map (fun x => x.position) ≠ [] := by simp
    have hset := set_length_pred ((first :: rest).map (fun x => x.position)) first.position hne
    rw [List.length_map, List.length_cons, Nat.add_sub_cancel] at hset
    rw [hset, List.map_dropLast]

theorem setPosition_vertex_length (m : Libm) (srt : StdSort) (s : Light) (p : Vector2f)
    (first : Intersection) (rest : List Intersection)
    (h : sortedIntersections m srt s p = first :: rest) :
    (setPosition m srt s p).vertex.length = (first :: rest).length + 1 := by
  rw [setPosition_vertex_of_cons m srt s p first rest h, length_assign]
  have hlen := length_resize s.vertex ((first :: rest).length + 1)
  generalize resize s.vertex ((first :: rest).length + 1) = v0 at hlen
  cases v0 with
  | nil => simp at hlen
  | cons w ws =>
    simp only [assign, fillHits_zero_cons, List.length_cons, length_paint] at hlen ⊢
    exact hlen

theorem someRayHits_iff (m : Libm) (s : Light) (p : Vector2f) :
    SomeRayHits m s p ↔ 0 < validRayCount m s p :=
  (validRayCount_pos_iff m s p).symm

theorem sortedIntersections_cons_of_hits (m : Libm) (srt : StdSort) (s : Light)
    (p : Vector2f) (h : SomeRayHits m s p) :
    ∃ first rest, sortedIntersections m srt s p = first :: rest := by
  have hpos := (someRayHits_iff m s p).mp h
  rw [← length_sortedIntersections m srt] at hpos
  cases hs : sortedIntersections m srt s p with
  | nil => rw [hs] at hpos; simp at hpos
  | cons first rest => exact ⟨first, rest, rfl⟩

theorem sortedIntersections_nil_of_no_hits (m : Libm) (srt : StdSort) (s : Light)
    (p : Vector2f) (h : ¬ SomeRayHits m s p) : sortedIntersections m srt s p = [] := by
  rw [someRayHits_iff] at h
  have hlen := length_sortedIntersections m srt s p
  rw [Nat.eq_zero_of_not_pos h] at hlen
  exact List.length_eq_zero.mp hlen

theorem sortedIntersections_pairwise (m : Libm) (srt : StdSort) (s : Light) (p : Vector2f) :
    (sortedIntersections m srt s p).Pairwise (fun a b => a.angle ≤ b.angle) :=
  (srt.sorted _).imp (fun hab => not_lt.mp hab)

/-! ## Claims about the polygon -/

/-- C3: when at least one ray has a valid intersection, element 0 of the polygon cached by
`setPosition p` is `p`, and the final element is the hit point of the first intersection of
the sorted list, a retained intersection of smallest angle. -/
theorem setPosition_center_and_closing (m : Libm) (srt : StdSort) (s : Light) (p : Vector2f)
    (h : SomeRayHits m s p) :
    ∃ first rest, sortedIntersections m srt s p = first :: rest ∧
      first ∈ retained m s p ∧
      (∀ i ∈ retained m s p, first.angle ≤ i.angle) ∧
      (setPosition m srt s p).vertex[0]?.map (fun w => w.position) = some p ∧
      (setPosition m srt s p).vertex.getLast?.map (fun w => w.position)
        = some first.position := by
  obtain ⟨first, rest, hs⟩ := sortedIntersections_cons_of_hits m srt s p h
  have hperm : (first :: rest).Perm (retained m s p) := by
    rw [← hs]
    exact srt.perm _
  have hsorted := sortedIntersections_pairwise m srt s p
  rw [hs, List.pairwise_cons] at hsorted
  have hpos := setPosition_vertex_positions m srt s p first rest hs
  refine ⟨first, rest, hs, hperm.mem_iff.mp (List.mem_cons_self _ _), ?_, ?_, ?_⟩
  · intro i hi
    rcases List.mem_cons.mp (hperm.mem_iff.mpr hi) with rfl | hi'
    · exact le_refl _
    · exact hsorted.1 i hi'
  · rw [← List.getElem?_map, hpos]
    simp
  · rw [← List.getLast?_map, hpos, ← List.cons_append, List.getLast?_concat]

/-- Witness for C3: the light at the origin in front of `wall`. -/
theorem setPosition_center_and_closing_witness :
    SomeRayHits diamondLibm wallLight ⟨0, 0⟩ ∧
    ∃ first rest, sortedIntersections diamondLibm insertionStdSort wallLight ⟨0, 0⟩
        = first :: rest ∧
      first ∈ retained diamondLibm wallLight ⟨0, 0⟩ ∧
      (∀ i ∈ retained diamondLibm wallLight ⟨0, 0⟩, first.angle ≤ i.angle) ∧
      (setPosition diamondLibm insertionStdSort wallLight ⟨0, 0⟩).vertex[0]?.map
          (fun w => w.position) = some ⟨0, 0⟩ ∧
      (setPosition diamondLibm insertionStdSort wallLight ⟨0, 0⟩).vertex.getLast?.map
          (fun w => w.position) = some first.position :=
  ⟨⟨-1 / 2, by decide!, wall, by decide!, by decide!⟩,
   setPosition_center_and_closing diamondLibm insertionStdSort wallLight ⟨0, 0⟩
     ⟨-1 / 2, by decide!, wall, by decide!, by decide!⟩⟩

/-- The size of a freshly written polygon: one element per valid ray, plus one. -/
theorem setPosition_vertex_length_eq (m : Libm) (srt : StdSort) (s : Light) (p : Vector2f)
    (h : SomeRayHits m s p) :
    (setPosition m srt s p).vertex.length = validRayCount m s p + 1 := by
  obtain ⟨first, rest, hs⟩ := sortedIntersections_cons_of_hits m srt s p h
  rw [setPosition_vertex_length m srt s p first rest hs, ← hs, length_sortedIntersections]

/-- C4 (evaluation at the failing input): with the single occluder `wall` and the light at the
origin, eight rays have a valid intersection and the polygon has nine elements, not ten. -/
theorem setPosition_wall_size :
    validRayCount diamondLibm wallLight ⟨0, 0⟩ = 8 ∧
    (setPosition diamondLibm insertionStdSort wallLight ⟨0, 0⟩).vertex.length = 9 := by
  decide!

/-- C5: the hit points between the light position and the closing element are the hit points
of an initial run of the sorted retained intersections (all but the last), in the order of the
sorted list, so their ray angles are non-decreasing. -/
theorem setPosition_hits_sorted (m : Libm) (srt : StdSort) (s : Light) (p : Vector2f)
    (h : SomeRayHits m s p) :
    (sortedIntersections m srt s p).Perm (retained m s p) ∧
    (sortedIntersections m srt s p).dropLast <+: sortedIntersections m srt s p ∧
    ((sortedIntersections m srt s p).dropLast).Pairwise (fun a b => a.angle ≤ b.angle) ∧
    ∃ closing : Vector2f,
      (setPosition m srt s p).vertex.map (fun w => w.position) =
        p :: (((sortedIntersections m srt s p).dropLast).map (fun x => x.position)
                ++ [closing]) := by
  obtain ⟨first, rest, hs⟩ := sortedIntersections_cons_of_hits m srt s p h
  refine ⟨srt.perm _, List.dropLast_prefix _, ?_, first.position, ?_⟩
  · exact (sortedIntersections_pairwise m srt s p).sublist (List.dropLast_sublist _)
  · rw [setPosition_vertex_positions m srt s p first rest hs, hs]

/-- Witness for C5: the light at the origin in front of `wall`. -/
theorem setPosition_hits_sorted_witness :
    SomeRayHits diamondLibm wallLight ⟨0, 0⟩ ∧
    (sortedIntersections diamondLibm insertionStdSort wallLight ⟨0, 0⟩).Perm
      (retained diamondLibm wallLight ⟨0, 0⟩) ∧
    (sortedIntersections diamondLibm insertionStdSort wallLight ⟨0, 0⟩).dropLast
      <+: sortedIntersections diamondLibm insertionStdSort wallLight ⟨0, 0⟩ ∧
    ((sortedIntersections diamondLibm insertionStdSort wallLight ⟨0, 0⟩).dropLast).Pairwise
      (fun a b => a.angle ≤ b.angle) ∧
    ∃ closing : Vector2f,
      (setPosition diamondLibm insertionStdSort wallLight ⟨0, 0⟩).vertex.map
          (fun w => w.position) =
        ⟨0, 0⟩ :: (((sortedIntersections diamondLibm insertionStdSort wallLight
                      ⟨0, 0⟩).dropLast).map (fun x => x.position) ++ [closing]) :=
  ⟨⟨-1 / 2, by decide!, wall, by decide!, by decide!⟩,
   setPosition_hits_sorted diamondLibm insertionStdSort wallLight ⟨0, 0⟩
     ⟨-1 / 2, by decide!, wall, by decide!, by decide!⟩⟩

/-- C6 (counterexample): with the single occluder `wall` and the light at the origin, the
polygon is non-empty and its last two elements have different coordinates. -/
theorem setPosition_wall_last_two_differ :
    (setPosition diamondLibm insertionStdSort wallLight ⟨0, 0⟩).vertex ≠ [] ∧
    ((setPosition diamondLibm insertionStdSort wallLight ⟨0, 0⟩).vertex.reverse[0]?.map
        (fun w => w.position) = some ⟨1, -1⟩) ∧
    ((setPosition diamondLibm insertionStdSort wallLight ⟨0, 0⟩).vertex.reverse[1]?.map
        (fun w => w.position) = some ⟨1, 49999 / 50001⟩) ∧
    ¬ ((setPosition diamondLibm insertionStdSort wallLight ⟨0, 0⟩).vertex.reverse[0]?.map
          (fun w => w.position) =
        (setPosition diamondLibm insertionStdSort wallLight ⟨0, 0⟩).vertex.reverse[1]?.map
          (fun w => w.position)) := by
  decide!

/-- C6 (amended): when at least one ray has a valid intersection, the last element of the
polygon is coordinate-identical to element 1, the first hit point (fan closure). -/
theorem setPosition_closing_eq_first_hit (m : Libm) (srt : StdSort) (s : Light)
    (p : Vector2f) (h : SomeRayHits m s p) :
    ∃ q : Vector2f,
      (setPosition m srt s p).vertex[1]?.map (fun w => w.position) = some q ∧
      (setPosition m srt s p).vertex.getLast?.map (fun w => w.position) = some q := by
  obtain ⟨first, rest, hs⟩ := sortedIntersections_cons_of_hits m srt s p h
  have hpos := setPosition_vertex_positions m srt s p first rest hs
  refine ⟨first.position, ?_, ?_⟩
  · rw [← List.getElem?_map, hpos]
    cases rest with
    | nil => simp
    | cons r rs => simp
  · rw [← List.getLast?_map, hpos, ← List.cons_append, List.getLast?_concat]

/-- Witness for C6 (amended): the light at the origin in front of `wall`. -/
theorem setPosition_closing_eq_first_hit_witness :
    SomeRayHits diamondLibm wallLight ⟨0, 0⟩ ∧
    ∃ q : Vector2f,
      (setPosition diamondLibm insertionStdSort wallLight ⟨0, 0⟩).vertex[1]?.map
          (fun w => w.position) = some q ∧
      (setPosition diamondLibm insertionStdSort wallLight ⟨0, 0⟩).vertex.getLast?.map
          (fun w => w.position) = some q :=
  ⟨⟨-1 / 2, by decide!, wall, by decide!, by decide!⟩,
   setPosition_closing_eq_first_hit diamondLibm insertionStdSort wallLight ⟨0, 0⟩
     ⟨-1 / 2, by decide!, wall, by decide!, by decide!⟩⟩

/-! ## Claims about stale state and occluder changes -/

theorem setPosition_vertex_of_no_hits (m : Libm) (srt : StdSort) (s : Light) (p : Vector2f)
    (h : ¬ SomeRayHits m s p) : (setPosition m srt s p).vertex = s.vertex := by
  rw [setPosition_of_nil m srt s p (sortedIntersections_nil_of_no_hits m srt s p h)]

theorem not_someRayHits_of_lines_nil (m : Libm) (s : Light) (p : Vector2f)
    (h : s.lines = []) : ¬ SomeRayHits m s p := by
  rintro ⟨_, _, line, hl, _⟩
  rw [h] at hl
  exact absurd hl (List.not_mem_nil line)

/-- C7 (evaluation at the failing input): the state reached by constructing a light with
`wall`, calling `setPosition` at the origin and then `clear` has no line left; `setPosition p`
on it casts no valid ray and yet leaves a polygon of nine elements cached. -/
theorem setPosition_keeps_stale_polygon (p : Vector2f) :
    Reachable diamondLibm insertionStdSort clearedLight ∧
    clearedLight.lines = [] ∧
    ¬ SomeRayHits diamondLibm clearedLight p ∧
    (setPosition diamondLibm insertionStdSort clearedLight p).vertex.length = 9 := by
  have hl : clearedLight.lines = [] := rfl
  have hn := not_someRayHits_of_lines_nil diamondLibm clearedLight p hl
  refine ⟨Reachable.clear (Reachable.setPosition ⟨0, 0⟩ (Reachable.ofLines [wall])), hl, hn, ?_⟩
  rw [setPosition_vertex_of_no_hits _ _ _ _ hn]
  decide!

/-- C8 (counterexample): after `addLine wall` on a new light the cached polygon is still
empty, while `setPosition` at the current position computes a polygon of nine elements. -/
theorem addLine_polygon_not_refreshed :
    Reachable diamondLibm insertionStdSort Light.new ∧
    (addLine Light.new wall).vertex = [] ∧
    (setPosition diamondLibm insertionStdSort (addLine Light.new wall)
        (addLine Light.new wall).position).vertex.length = 9 ∧
    (addLine Light.new wall).vertex ≠
      (setPosition diamondLibm insertionStdSort (addLine Light.new wall)
        (addLine Light.new wall).position).vertex :=
  ⟨Reachable.new, by decide!, by decide!, by decide!⟩

/-- C8 (amended): `addLine` and, whenever the call completes, `removeLine` leave the cached
polygon exactly as it was before the call. -/
theorem occluder_change_keeps_polygon (s : Light) (line : Line) (i : Int) :
    (addLine s line).vertex = s.vertex ∧
    ∀ s', removeLine s i = some s' → s'.vertex = s.vertex := by
  refine ⟨rfl, ?_⟩
  intro s' h
  unfold removeLine at h
  split_ifs at h
  cases h
  rfl

/-- Witness for C8 (amended): the light `litWallLight`, whose cached polygon has nine
elements, with `addLine` of a second wall and `removeLine 0`. -/
theorem occluder_change_keeps_polygon_witness :
    litWallLight.vertex.length = 9 ∧
    (addLine litWallLight ⟨⟨3, -1⟩, ⟨3, 1⟩⟩).vertex = litWallLight.vertex ∧
    removeLine litWallLight 0
      = some (findVertices { litWallLight with vertices := litWallLight.vertices.eraseIdx 0 }) ∧
    (findVertices { litWallLight with vertices := litWallLight.vertices.eraseIdx 0 }).vertex
      = litWallLight.vertex :=
  ⟨by decide!,
   (occluder_change_keeps_polygon litWallLight ⟨⟨3, -1⟩, ⟨3, 1⟩⟩ 0).1,
   by decide!,
   (occluder_change_keeps_polygon litWallLight ⟨⟨3, -1⟩, ⟨3, 1⟩⟩ 0).2 _ (by decide!)⟩

/-- C9 (evaluation at the failing input): `removeLine 0` on a light with the single line
`wall` completes, the line list still holds `wall` (count 1, not 0), and the two vertices have
traded places. -/
theorem removeLine_keeps_lines :
    getLinesCount wallLight = 1 ∧
    wallLight.vertices = [⟨1, -1⟩, ⟨1, 1⟩] ∧
    (removeLine wallLight 0).map (fun s => (getLinesCount s, s.lines, s.vertices))
      = some (1, [wall], [⟨1, 1⟩, ⟨1, -1⟩]) := by
  decide!

/-- C10 (counterexample): on a light with two lines and four vertices, `removeLine` with
index `getLinesCount() = 2` completes and changes the vertex list. -/
theorem removeLine_at_count_changes_vertices :
    getLinesCount twoWalls = 2 ∧
    twoWalls.vertices = [⟨1, -1⟩, ⟨1, 1⟩, ⟨3, -1⟩, ⟨3, 1⟩] ∧
    (removeLine twoWalls (getLinesCount twoWalls)).map (fun s => s.vertices)
      = some [⟨1, -1⟩, ⟨1, 1⟩, ⟨3, 1⟩, ⟨3, -1⟩] := by
  decide!

/-- C10 (amended): `removeLine` has no bounds check and no error result. Called with index
`getLinesCount()`, it completes whenever that index is below the number of cached vertices,
and then the line list and the cached polygon are unchanged. -/
theorem removeLine_at_count (s : Light) (h : s.lines.length < s.vertices.length) :
    ∃ s', removeLine s (getLinesCount s) = some s' ∧
      s'.lines = s.lines ∧ s'.vertex = s.vertex := by
  have hc : (0 : Int) ≤ getLinesCount s ∧ getLinesCount s < s.vertices.length := by
    unfold getLinesCount
    exact ⟨Int.natCast_nonneg _, by exact_mod_cast h⟩
  refine ⟨findVertices { s with vertices := s.vertices.eraseIdx (getLinesCount s).toNat },
    ?_, rfl, rfl⟩
  unfold removeLine
  rw [if_pos hc]

/-- Witness for C10 (amended): the light `twoWalls`. -/
theorem removeLine_at_count_witness :
    twoWalls.lines.length < twoWalls.vertices.length ∧
    ∃ s', removeLine twoWalls (getLinesCount twoWalls) = some s' ∧
      s'.lines = twoWalls.lines ∧ s'.vertex = twoWalls.vertex :=
  ⟨by decide!, removeLine_at_count twoWalls (by decide!)⟩

/-! ## Further claims about `getIntersection` -/

/-- C15: the ray from `(0,0)` toward `(1,0)` and the segment from `(2,-1)` to `(2,1)` give a
valid intersection at position `(2,0)` with ray parameter `2`. -/
theorem getIntersection_hit_example :
    (getIntersection ⟨⟨0, 0⟩, ⟨1, 0⟩⟩ ⟨⟨2, -1⟩, ⟨2, 1⟩⟩).valid = true ∧
    (getIntersection ⟨⟨0, 0⟩, ⟨1, 0⟩⟩ ⟨⟨2, -1⟩, ⟨2, 1⟩⟩).position = ⟨2, 0⟩ ∧
    (getIntersection ⟨⟨0, 0⟩, ⟨1, 0⟩⟩ ⟨⟨2, -1⟩, ⟨2, 1⟩⟩).param = 2 := by
  decide!

/-- C16: the ray from `(0,0)` toward `(1,0)` has no intersection with the segment from
`(-2,-1)` to `(-2,1)` (behind the ray) nor with the segment from `(2,2)` to `(2,3)` (the ray
passes below it). -/
theorem getIntersection_miss_examples :
    (getIntersection ⟨⟨0, 0⟩, ⟨1, 0⟩⟩ ⟨⟨-2, -1⟩, ⟨-2, 1⟩⟩).valid = false ∧
    (getIntersection ⟨⟨0, 0⟩, ⟨1, 0⟩⟩ ⟨⟨2, 2⟩, ⟨2, 3⟩⟩).valid = false := by
  decide!

theorem parallel_swap (ray segment : Line) :
    Parallel ray ⟨segment.end_, segment.start⟩ ↔ Parallel ray segment := by
  unfold Parallel
  constructor <;> intro h <;> linear_combination -h

theorem rayParam_swap {ray segment : Line} (h : ¬ Parallel ray segment) :
    rayParam ray ⟨segment.end_, segment.start⟩ = rayParam ray segment := by
  have hs : ¬ Parallel ray ⟨segment.end_, segment.start⟩ := fun hp => h ((parallel_swap _ _).mp hp)
  obtain ⟨hx, hy⟩ := meets_params h
  have hm : Meets ray ⟨segment.end_, segment.start⟩ (rayParam ray segment)
      (1 - segParam ray segment) := by
    unfold Meets
    constructor
    · rw [hx]; ring
    · rw [hy]; ring
  exact ((meets_unique hs hm).1).symm

theorem segParam_swap {ray segment : Line} (h : ¬ Parallel ray segment) :
    segParam ray ⟨segment.end_, segment.start⟩ = 1 - segParam ray segment := by
  have hs : ¬ Parallel ray ⟨segment.end_, segment.start⟩ := fun hp => h ((parallel_swap _ _).mp hp)
  obtain ⟨hx, hy⟩ := meets_params h
  have hm : Meets ray ⟨segment.end_, segment.start⟩ (rayParam ray segment)
      (1 - segParam ray segment) := by
    unfold Meets
    constructor
    · rw [hx]; ring
    · rw [hy]; ring
  exact ((meets_unique hs hm).2).symm

theorem getIntersection_swap (ray segment : Line) :
    getIntersection ray ⟨segment.end_, segment.start⟩ = getIntersection ray segment := by
  by_cases h : Parallel ray segment
  · rw [getIntersection_parallel h, getIntersection_parallel ((parallel_swap _ _).mpr h)]
  · have hs : ¬ Parallel ray ⟨segment.end_, segment.start⟩ :=
      fun hp => h ((parallel_swap _ _).mp hp)
    rw [getIntersection_eq h, getIntersection_eq hs, rayParam_swap h, segParam_swap h]
    have hc : (rayParam ray segment < 0 ∨ 1 - segParam ray segment < 0
          ∨ 1 - segParam ray segment > 1) ↔
        (rayParam ray segment < 0 ∨ segParam ray segment < 0 ∨ segParam ray segment > 1) := by
      constructor
      · rintro (h1 | h1 | h1)
        · exact Or.inl h1
        · exact Or.inr (Or.inr (by linarith))
        · exact Or.inr (Or.inl (by linarith))
      · rintro (h1 | h1 | h1)
        · exact Or.inl h1
        · exact Or.inr (Or.inr (by linarith))
        · exact Or.inr (Or.inl (by linarith))
    by_cases hv : rayParam ray segment < 0 ∨ segParam ray segment < 0
        ∨ segParam ray segment > 1
    · rw [if_pos hv, if_pos (hc.mpr hv)]
    · rw [if_neg hv, if_neg (fun h' => hv (hc.mp h'))]

/-- C20: `getIntersection` does not depend on the orientation of the segment: with start and
end swapped the validity flag is the same and, when valid, so are the hit position and the
ray parameter (indeed the whole result is the same). -/
theorem getIntersection_orientation (ray segment : Line) :
    (getIntersection ray ⟨segment.end_, segment.start⟩).valid
        = (getIntersection ray segment).valid ∧
    ((getIntersection ray segment).valid = true →
      (getIntersection ray ⟨segment.end_, segment.start⟩).position
          = (getIntersection ray segment).position ∧
      (getIntersection ray ⟨segment.end_, segment.start⟩).param
          = (getIntersection ray segment).param) ∧
    getIntersection ray ⟨segment.end_, segment.start⟩ = getIntersection ray segment := by
  rw [getIntersection_swap]
  exact ⟨rfl, fun _ => ⟨rfl, rfl⟩, rfl⟩

/-- Witness for C20: the ray from `(0,0)` through `(1,1)` against the segment from `(0,2)` to
`(2,0)` and against the same segment reversed; both are valid hits. -/
theorem getIntersection_orientation_witness :
    (getIntersection ⟨⟨0, 0⟩, ⟨1, 1⟩⟩ ⟨⟨0, 2⟩, ⟨2, 0⟩⟩).valid = true ∧
    (getIntersection ⟨⟨0, 0⟩, ⟨1, 1⟩⟩ ⟨⟨2, 0⟩, ⟨0, 2⟩⟩).position
        = (getIntersection ⟨⟨0, 0⟩, ⟨1, 1⟩⟩ ⟨⟨0, 2⟩, ⟨2, 0⟩⟩).position ∧
    (getIntersection ⟨⟨0, 0⟩, ⟨1, 1⟩⟩ ⟨⟨2, 0⟩, ⟨0, 2⟩⟩).param
        = (getIntersection ⟨⟨0, 0⟩, ⟨1, 1⟩⟩ ⟨⟨0, 2⟩, ⟨2, 0⟩⟩).param :=
  ⟨by decide!,
   (getIntersection_orientation ⟨⟨0, 0⟩, ⟨1, 1⟩⟩ ⟨⟨0, 2⟩, ⟨2, 0⟩⟩).2.1 (by decide!)⟩

/-! ## The vertex set -/

theorem findVertices_lines (s : Light) : (findVertices s).lines = s.lines := rfl

theorem findVertices_vertex (s : Light) : (findVertices s).vertex = s.vertex := rfl

theorem findVertices_vertices (s : Light) :
    (findVertices s).vertices =
      addMissing s.vertices
        (s.lines.foldl (fun points line => points ++ [line.start, line.end_]) []) := rfl

theorem clear_vertices (s : Light) : (clear s).vertices = s.vertices := rfl

theorem addLine_lines (s : Light) (line : Line) : (addLine s line).lines = s.lines ++ [line] :=
  rfl

theorem addMissing_nodup (vertices points : List Vector2f) (h : vertices.Nodup) :
    (addMissing vertices points).Nodup := by
  induction points generalizing vertices with
  | nil => exact h
  | cons pt pts ih =>
    unfold addMissing
    rw [List.foldl_cons]
    by_cases hm : pt ∈ vertices
    · rw [if_pos hm]
      exact ih vertices h
    · rw [if_neg hm]
      apply ih
      rw [← List.concat_eq_append]
      exact List.Nodup.concat hm h

theorem findVertices_nodup (s : Light) (h : s.vertices.Nodup) :
    (findVertices s).vertices.Nodup := by
  rw [findVertices_vertices]
  exact addMissing_nodup _ _ h

theorem setPosition_vertices (m : Libm) (srt : StdSort) (s : Light) (p : Vector2f) :
    (setPosition m srt s p).vertices = s.vertices := by
  unfold setPosition
  cases sortedIntersections m srt s p <;> rfl

theorem setPosition_lines (m : Libm) (srt : StdSort) (s : Light) (p : Vector2f) :
    (setPosition m srt s p).lines = s.lines := by
  unfold setPosition
  cases sortedIntersections m srt s p <;> rfl

theorem setPosition_color (m : Libm) (srt : StdSort) (s : Light) (p : Vector2f) :
    (setPosition m srt s p).color = s.color := by
  unfold setPosition
  cases sortedIntersections m srt s p <;> rfl

theorem setPosition_position (m : Libm) (srt : StdSort) (s : Light) (p : Vector2f) :
    (setPosition m srt s p).position = p := by
  unfold setPosition
  cases sortedIntersections m srt s p <;> rfl

/-- C11 (evaluation at the failing input): `clear` on the light constructed with `wall`
empties the line list, but both endpoints of `wall` stay in the vertex list. -/
theorem clear_keeps_vertices :
    Reachable diamondLibm insertionStdSort wallLight ∧
    getLinesCount (clear wallLight) = 0 ∧
    (clear wallLight).lines = [] ∧
    (clear wallLight).vertices = [⟨1, -1⟩, ⟨1, 1⟩] :=
  ⟨Reachable.ofLines [wall], by decide!, by decide!, by decide!⟩

/-- C12 (evaluation at the failing input): in the state reached by constructing a light with
`wall` and calling `clear`, `addLine` of the segment from `(3,-1)` to `(3,1)` appends the line
(count 1, `getLine 0` is the new line), but the vertex list holds four points while the
rebuild from the current lines gives two. -/
theorem addLine_keeps_stale_vertices :
    Reachable diamondLibm insertionStdSort (clear wallLight) ∧
    getLinesCount (clear wallLight) = 0 ∧
    getLinesCount reusedLight = 1 ∧
    getLine reusedLight 0 = some ⟨⟨3, -1⟩, ⟨3, 1⟩⟩ ∧
    reusedLight.vertices = [⟨1, -1⟩, ⟨1, 1⟩, ⟨3, -1⟩, ⟨3, 1⟩] ∧
    rebuiltVertices reusedLight.lines = [⟨3, -1⟩, ⟨3, 1⟩] :=
  ⟨Reachable.clear (Reachable.ofLines [wall]), by decide!, by decide!, by decide!, by decide!,
   by decide!⟩

/-- C13: in every state reachable through the public interface the vertex list has no two
equal coordinates. -/
theorem reachable_vertices_nodup (m : Libm) (srt : StdSort) (s : Light)
    (h : Reachable m srt s) : s.vertices.Nodup := by
  induction h with
  | new => exact List.nodup_nil
  | ofLines ls => exact findVertices_nodup _ List.nodup_nil
  | clear _ ih => exact findVertices_nodup _ ih
  | addLine l _ ih => exact findVertices_nodup _ ih
  | removeLine i _ hr ih =>
    unfold removeLine at hr
    split_ifs at hr
    cases hr
    exact findVertices_nodup _ (List.Nodup.eraseIdx _ ih)
  | setPosition p _ ih =>
    rw [setPosition_vertices]
    exact ih
  | setColor c _ ih => exact ih
  | setIntensity v _ ih => exact ih
  | setEnergy v _ ih => exact ih

/-- Witness for C13: the state reached by constructing a light with two lines, `removeLine 2`,
`addLine wall` and `setPosition` at the origin. -/
theorem reachable_vertices_nodup_witness :
    Reachable diamondLibm insertionStdSort
      (setPosition diamondLibm insertionStdSort
        (addLine (findVertices { twoWalls with vertices := twoWalls.vertices.eraseIdx 2 }) wall)
        ⟨0, 0⟩) ∧
    (setPosition diamondLibm insertionStdSort
        (addLine (findVertices { twoWalls with vertices := twoWalls.vertices.eraseIdx 2 }) wall)
        ⟨0, 0⟩).vertices.Nodup :=
  ⟨Reachable.setPosition ⟨0, 0⟩
     (Reachable.addLine wall
       (Reachable.removeLine 2 (Reachable.ofLines [wall, ⟨⟨3, -1⟩, ⟨3, 1⟩⟩]) (by decide!))),
   reachable_vertices_nodup diamondLibm insertionStdSort _
     (Reachable.setPosition ⟨0, 0⟩
       (Reachable.addLine wall
         (Reachable.removeLine 2 (Reachable.ofLines [wall, ⟨⟨3, -1⟩, ⟨3, 1⟩⟩]) (by decide!))))⟩

/-! ## Nearest hit per ray -/

theorem nearestAmong_step (ray : Line) (seen : List Line) (acc : Intersection) (line : Line)
    (h : NearestAmong ray seen acc) :
    NearestAmong ray (seen ++ [line]) (closestStep ray acc line) := by
  unfold closestStep
  by_cases hv : (getIntersection ray line).valid = true
  · rcases h with ⟨ha, hall⟩ | ⟨ha, ⟨l0, hl0, he⟩, hmin⟩
    · -- first valid intersection
      simp only [hv, ha, Bool.not_true, Bool.false_eq_true, if_false, Bool.not_false,
        Bool.true_or, if_true]
      refine Or.inr ⟨hv, ⟨line, by simp, rfl⟩, ?_⟩
      intro l hl hlv
      rcases List.mem_append.mp hl with hl | hl
      · rw [hall l hl] at hlv
        exact absurd hlv (by simp)
      · rw [List.mem_singleton.mp hl]
    · by_cases hlt : (getIntersection ray line).param < acc.param
      · simp only [hv, ha, hlt, Bool.not_true, Bool.false_eq_true, if_false, decide_True,
          Bool.or_true, if_true]
        refine Or.inr ⟨hv, ⟨line, by simp, rfl⟩, ?_⟩
        intro l hl hlv
        rcases List.mem_append.mp hl with hl | hl
        · exact le_trans (le_of_lt hlt) (hmin l hl hlv)
        · rw [List.mem_singleton.mp hl]
      · simp only [hv, ha, hlt, Bool.not_true, Bool.false_eq_true, if_false, decide_False,
          Bool.or_false]
        refine Or.inr ⟨ha, ⟨l0, List.mem_append_left _ hl0, he⟩, ?_⟩
        intro l hl hlv
        rcases List.mem_append.mp hl with hl | hl
        · exact hmin l hl hlv
        · rw [List.mem_singleton.mp hl]
          exact not_lt.mp hlt
  · have hv' : (getIntersection ray line).valid = false := by
      cases hc : (getIntersection ray line).valid
      · rfl
      · exact absurd hc hv
    simp only [hv', Bool.not_false, if_true]
    rcases h with ⟨ha, hall⟩ | ⟨ha, ⟨l0, hl0, he⟩, hmin⟩
    · refine Or.inl ⟨ha, ?_⟩
      intro l hl
      rcases List.mem_append.mp hl with hl | hl
      · exact hall l hl
      · rw [List.mem_singleton.mp hl]
        exact hv'
    · refine Or.inr ⟨ha, ⟨l0, List.mem_append_left _ hl0, he⟩, ?_⟩
      intro l hl hlv
      rcases List.mem_append.mp hl with hl | hl
      · exact hmin l hl hlv
      · rw [List.mem_singleton.mp hl, hv'] at hlv
        exact absurd hlv (by simp)

theorem nearestAmong_foldl (ray : Line) (lines seen : List Line) (acc : Intersection)
    (h : NearestAmong ray seen acc) :
    NearestAmong ray (seen ++ lines) (lines.foldl (closestStep ray) acc) := by
  induction lines generalizing seen acc with
  | nil => simpa using h
  | cons l ls ih =>
    rw [List.foldl_cons]
    have := ih (seen ++ [l]) (closestStep ray acc l) (nearestAmong_step ray seen acc l h)
    simpa using this

theorem nearestAmong_closestIntersect (ray : Line) (lines : List Line) :
    NearestAmong ray lines (closestIntersect ray lines) := by
  have h0 : NearestAmong ray [] ({} : Intersection) :=
    Or.inl ⟨rfl, fun l hl => absurd hl (List.not_mem_nil l)⟩
  have := nearestAmong_foldl ray lines [] {} h0
  simpa using this

theorem castRays_singleton (m : Libm) (p : Vector2f) (lines : List Line) (angle : ℚ) :
    castRays m p lines [angle] =
      if (closestIntersect (rayOf m p angle) lines).valid = true then
        [{ closestIntersect (rayOf m p angle) lines with angle := angle }]
      else [] := by
  rw [castRays_eq_filterMap]
  by_cases hv : (closestIntersect (rayOf m p angle) lines).valid = true
  · simp [castOne, hv]
  · simp [castOne, hv]

theorem filterMap_eq_flatMap {α β : Type} (f : α → Option β) (l : List α) :
    l.filterMap f = l.flatMap (fun a => [a].filterMap f) := by
  induction l with
  | nil => rfl
  | cons a as ih =>
    rw [List.flatMap_cons, ← ih]
    cases h : f a <;> simp [List.filterMap_cons, h]

/-- Nearest hit per ray in exact arithmetic: if some line gives a valid intersection then
exactly one intersection is retained, it is the valid intersection with one of the lines
(tagged with the ray angle), and its `param` is at most that of every valid intersection of
the ray; if no line gives a valid intersection, nothing is retained. -/
theorem castRays_keeps_nearest (m : Libm) (p : Vector2f) (lines : List Line) (angle : ℚ) :
    ((∃ line ∈ lines, (getIntersection (rayOf m p angle) line).valid = true) →
      ∃ line ∈ lines, (getIntersection (rayOf m p angle) line).valid = true ∧
        castRays m p lines [angle]
          = [{ getIntersection (rayOf m p angle) line with angle := angle }] ∧
        ∀ line' ∈ lines, (getIntersection (rayOf m p angle) line').valid = true →
          (getIntersection (rayOf m p angle) line).param
            ≤ (getIntersection (rayOf m p angle) line').param) ∧
    ((¬ ∃ line ∈ lines, (getIntersection (rayOf m p angle) line).valid = true) →
      castRays m p lines [angle] = []) ∧
    ∀ angles : List ℚ,
      castRays m p lines angles = angles.flatMap (fun a => castRays m p lines [a]) := by
  refine ⟨?_, ?_, ?_⟩
  · rintro ⟨l1, hl1, hv1⟩
    rcases nearestAmong_closestIntersect (rayOf m p angle) lines with
      ⟨_, hall⟩ | ⟨ha, ⟨l0, hl0, he⟩, hmin⟩
    · rw [hall l1 hl1] at hv1
      exact absurd hv1 (by simp)
    · refine ⟨l0, hl0, he ▸ ha, ?_, ?_⟩
      · rw [castRays_singleton, if_pos ha, he]
      · intro l' hl' hv'
        rw [← he]
        exact hmin l' hl' hv'
  · intro hno
    rw [castRays_singleton]
    rcases nearestAmong_closestIntersect (rayOf m p angle) lines with
      ⟨ha, _⟩ | ⟨ha, ⟨l0, hl0, he⟩, _⟩
    · rw [ha]
      rfl
    · exact absurd ⟨l0, hl0, he ▸ ha⟩ hno
  · intro angles
    rw [castRays_eq_filterMap, filterMap_eq_flatMap]
    congr 1
    funext a
    rw [castRays_eq_filterMap]

/-! ## Idempotence of `setPosition` -/

theorem resize_of_length (v : List Vertex) (n : Nat) (h : v.length = n) : resize v n = v := by
  unfold resize
  rw [h, Nat.sub_self, List.replicate_zero, List.append_nil, ← h, List.take_length]

theorem map_texCoords_assign (v : List Vertex) (k : Nat) (p : Vector2f) (c : Color) :
    (assign v k p c).map (fun w => w.texCoords) = v.map (fun w => w.texCoords) := by
  induction v generalizing k with
  | nil => rfl
  | cons w ws ih =>
    cases k with
    | zero => rfl
    | succ k => simp [assign, ih]

theorem map_texCoords_paint (c : Color) (xs : List Intersection) (vs : List Vertex) :
    (paint c xs vs).map (fun w => w.texCoords) = vs.map (fun w => w.texCoords) := by
  induction xs generalizing vs with
  | nil => cases vs <;> rfl
  | cons x xs ih =>
    cases vs with
    | nil => rfl
    | cons w ws => simp [paint, ih]

theorem paint_congr (c : Color) (xs : List Intersection) (vs vs' : List Vertex)
    (hlen : vs.length ≤ xs.length)
    (h : vs.map (fun w => w.texCoords) = vs'.map (fun w => w.texCoords)) :
    paint c xs vs = paint c xs vs' := by
  induction xs generalizing vs vs' with
  | nil =>
    have hv : vs = [] := List.length_eq_zero.mp (Nat.le_zero.mp hlen)
    subst hv
    have hv' : vs' = [] := by
      cases vs' with
      | nil => rfl
      | cons w ws => simp at h
    rw [hv']
  | cons x xs ih =>
    cases vs with
    | nil =>
      cases vs' with
      | nil => rfl
      | cons w ws => simp at h
    | cons w ws =>
      cases vs' with
      | nil => simp at h
      | cons w' ws' =>
        simp only [List.map_cons, List.cons.injEq] at h
        simp only [List.length_cons, Nat.add_le_add_iff_right] at hlen
        simp only [paint, h.1, ih ws ws' hlen h.2]

theorem writePolygon_cons (c : Color) (p : Vector2f) (first : Intersection)
    (rest : List Intersection) (w : Vertex) (ws : List Vertex) :
    writePolygon c p first rest (w :: ws) =
      { w with position := p, color := c }
        :: assign (paint c (first :: rest) ws) rest.length first.position c := by
  simp only [writePolygon, assign, fillHits_zero_cons, List.length_cons]

theorem length_writePolygon (c : Color) (p : Vector2f) (first : Intersection)
    (rest : List Intersection) (v : List Vertex) :
    (writePolygon c p first rest v).length = v.length := by
  cases v with
  | nil => simp [writePolygon, assign, fillHits_nil]
  | cons w ws => simp [writePolygon_cons, length_assign, length_paint]

theorem writePolygon_idem (c : Color) (p : Vector2f) (first : Intersection)
    (rest : List Intersection) (v : List Vertex) (h : v.length = (first :: rest).length + 1) :
    writePolygon c p first rest (writePolygon c p first rest v) = writePolygon c p first rest v := by
  cases v with
  | nil => simp at h
  | cons w ws =>
    have hws : ws.length = (first :: rest).length := by
      simp only [List.length_cons] at h ⊢
      omega
    rw [writePolygon_cons, writePolygon_cons]
    congr 2
    apply paint_congr
    · rw [length_assign, length_paint, hws]
    · rw [map_texCoords_assign, map_texCoords_paint]

theorem setPosition_of_cons (m : Libm) (srt : StdSort) (s : Light) (p : Vector2f)
    (first : Intersection) (rest : List Intersection)
    (h : sortedIntersections m srt s p = first :: rest) :
    setPosition m srt s p =
      { s with
        position := p
        vertex := writePolygon s.color p first rest
          (resize s.vertex ((first :: rest).length + 1)) } := by
  unfold setPosition
  simp only [h]
  rfl

theorem sortedIntersections_congr (m : Libm) (srt : StdSort) (s s' : Light) (p : Vector2f)
    (hl : s'.lines = s.lines) (hv : s'.vertices = s.vertices) :
    sortedIntersections m srt s' p = sortedIntersections m srt s p := by
  unfold sortedIntersections
  rw [hl, hv]

/-- C14: calling `setPosition p` a second time with unchanged occluders leaves exactly the
state, and so the cached polygon (length, positions, colors), of the first call. -/
theorem setPosition_idempotent (m : Libm) (srt : StdSort) (s : Light) (p : Vector2f) :
    (setPosition m srt (setPosition m srt s p) p).vertex = (setPosition m srt s p).vertex ∧
    setPosition m srt (setPosition m srt s p) p = setPosition m srt s p := by
  have hsame : sortedIntersections m srt (setPosition m srt s p) p
      = sortedIntersections m srt s p :=
    sortedIntersections_congr m srt s _ p (setPosition_lines m srt s p)
      (setPosition_vertices m srt s p)
  have key : setPosition m srt (setPosition m srt s p) p = setPosition m srt s p := by
    cases hs : sortedIntersections m srt s p with
    | nil =>
      rw [setPosition_of_nil m srt _ p (hsame.trans hs), setPosition_of_nil m srt s p hs]
    | cons first rest =>
      rw [setPosition_of_cons m srt _ p first rest (hsame.trans hs)]
      rw [setPosition_of_cons m srt s p first rest hs]
      have hlen : (writePolygon s.color p first rest
          (resize s.vertex ((first :: rest).length + 1))).length
            = (first :: rest).length + 1 := by
        rw [length_writePolygon, length_resize]
      simp only
      rw [resize_of_length _ _ hlen,
        writePolygon_idem _ _ _ _ _ (length_resize s.vertex ((first :: rest).length + 1))]
  exact ⟨congrArg Light.vertex key, key⟩

/-! ## What the polygon is made of -/

theorem length_castAngles_foldl (m : Libm) (p : Vector2f) (vertices : List Vector2f)
    (init : List ℚ) :
    (vertices.foldl
        (fun angles vertice =>
          angles ++ jitter (m.atan2f (vertice.y - p.y) (vertice.x - p.x)))
        init).length = init.length + 7 * vertices.length := by
  induction vertices generalizing init with
  | nil => simp
  | cons v vs ih =>
    rw [List.foldl_cons, ih, List.length_append, List.length_cons]
    simp only [jitter, List.length_cons, List.length_nil]
    omega

theorem length_castAngles (m : Libm) (p : Vector2f) (vertices : List Vector2f) :
    (castAngles m p vertices).length = 7 * vertices.length := by
  unfold castAngles
  rw [length_castAngles_foldl]
  simp

theorem validRayCount_le (m : Libm) (s : Light) (p : Vector2f) :
    validRayCount m s p ≤ 7 * s.vertices.length := by
  unfold validRayCount
  rw [← length_castAngles m p s.vertices]
  exact List.countP_le_length _

/-- C18 (counterexample): with the single occluder `wall` and the light at the origin,
fourteen rays are cast and eight of them keep an intersection, not two; the polygon carries
eight entries behind the light position. -/
theorem setPosition_wall_eight_hits :
    (castAngles diamondLibm ⟨0, 0⟩ wallLight.vertices).length = 14 ∧
    (retained diamondLibm wallLight ⟨0, 0⟩).length = 8 ∧
    (retained diamondLibm wallLight ⟨0, 0⟩).length ≠ 2 ∧
    ((setPosition diamondLibm insertionStdSort wallLight ⟨0, 0⟩).vertex.map
        (fun w => w.position)).tail.length = 8 := by
  decide!

/-! ## Which rays are cast, and what each keeps -/

theorem castAngles_foldl (m : Libm) (p : Vector2f) (vertices : List Vector2f)
    (init : List ℚ) :
    vertices.foldl
        (fun angles vertice =>
          angles ++ jitter (m.atan2f (vertice.y - p.y) (vertice.x - p.x)))
        init
      = init ++ vertices.flatMap (fun v => jitter (m.atan2f (v.y - p.y) (v.x - p.x))) := by
  induction vertices generalizing init with
  | nil => simp
  | cons v vs ih => rw [List.foldl_cons, ih, List.flatMap_cons, List.append_assoc]

theorem castAngles_eq_flatMap (m : Libm) (p : Vector2f) (vertices : List Vector2f) :
    castAngles m p vertices
      = vertices.flatMap (fun v => jitter (m.atan2f (v.y - p.y) (v.x - p.x))) := by
  unfold castAngles
  rw [castAngles_foldl]
  rfl

theorem castOne_angle (m : Libm) (p : Vector2f) (lines : List Line) (a : ℚ)
    (i : Intersection) (h : castOne m p lines a = some i) : i.angle = a := by
  unfold castOne at h
  by_cases hc : (closestIntersect (rayOf m p a) lines).valid = true
  · simp only [hc, if_true, Option.some.injEq] at h
    rw [← h]
  · simp [hc] at h

theorem map_filterMap_eq_filter {α β : Type} (f : α → Option β) (g : β → α) (l : List α)
    (h : ∀ a b, f a = some b → g b = a) :
    (l.filterMap f).map g = l.filter (fun a => (f a).isSome) := by
  induction l with
  | nil => rfl
  | cons a as ih =>
    cases hf : f a with
    | none => simp [List.filterMap_cons, hf, ih]
    | some b => simp [List.filterMap_cons, hf, ih, h a b hf]

theorem retained_angles (m : Libm) (s : Light) (p : Vector2f) :
    (retained m s p).map (fun i => i.angle)
      = (castAngles m p s.vertices).filter (rayHits m p s.lines) := by
  unfold retained
  rw [castRays_eq_filterMap,
    map_filterMap_eq_filter _ _ _ (fun a b hb => castOne_angle m p s.lines a b hb)]
  congr 1
  funext a
  exact castOne_isSome m p s.lines a

theorem rayHits_wall_iff (m : Libm) (a : ℚ) :
    rayHits m ⟨0, 0⟩ [wall] a = true ↔ AimsAtWall m a := by
  unfold rayHits AimsAtWall
  simp only [List.any_cons, List.any_nil, Bool.or_false]
  rw [valid_iff]
  simp only [Parallel, rayParam, segParam, rayOf, wall]
  have e1 : ((0 : ℚ) + m.cosf a - 0) * (1 - -1) = 2 * m.cosf a := by ring
  have e2 : ((0 : ℚ) + m.sinf a - 0) * (1 - 1) = 0 := by ring
  have e3 : (((1 : ℚ) - 1) * (0 - -1) + (1 - -1) * (1 - 0)) = 2 := by norm_num
  have e4 : (((0 : ℚ) + m.cosf a - 0) * (-1 - 0) + (0 + m.sinf a - 0) * (0 - 1))
      = -(m.cosf a + m.sinf a) := by ring
  have e5 : (((1 : ℚ) - 1) * (0 + m.sinf a - 0) - (1 - -1) * (0 + m.cosf a - 0))
      = -(2 * m.cosf a) := by ring
  rw [e1, e2, e3, e4, e5, sub_zero, neg_div_neg_eq]
  constructor
  · rintro ⟨hne, h1, h2, h3⟩
    have hc0 : m.cosf a ≠ 0 := fun h0 => hne (by rw [h0]; ring)
    have hpos : 0 < m.cosf a := by
      rcases lt_or_gt_of_ne hc0 with hneg | hpos
      · have : 2 / (2 * m.cosf a) < 0 := div_neg_of_pos_of_neg (by norm_num) (by linarith)
        linarith
      · exact hpos
    have h2c : 0 < 2 * m.cosf a := by linarith
    rw [le_div_iff₀ h2c] at h2
    rw [div_le_one h2c] at h3
    exact ⟨hpos, by linarith, by linarith⟩
  · rintro ⟨hpos, h1, h2⟩
    have h2c : 0 < 2 * m.cosf a := by linarith
    refine ⟨ne_of_gt h2c, le_of_lt (div_pos (by norm_num) h2c), ?_, ?_⟩
    · rw [le_div_iff₀ h2c]
      linarith
    · rw [div_le_one h2c]
      linarith

theorem wallLight_castAngles (m : Libm) :
    castAngles m ⟨0, 0⟩ wallLight.vertices
      = jitter (m.atan2f (-1) 1) ++ jitter (m.atan2f 1 1) := by
  have hv : wallLight.vertices = [⟨1, -1⟩, ⟨1, 1⟩] := by decide!
  rw [castAngles_eq_flatMap, hv]
  simp only [List.flatMap_cons, List.flatMap_nil, List.append_nil, sub_zero]

/-- C18 (amended): in exact arithmetic, with the single occluder `wall` and the light at the
origin, whenever the rays at the angle of each endpoint and the three jittered toward the
inside of the segment point at the segment and the three jittered past each endpoint do
not, `setPosition` casts 14 rays and retains exactly eight intersections, one for each of the
eight rays that point at the segment, in cast order and without merging any of them. -/
theorem setPosition_wall_hits (m : Libm)
    (hin : ∀ a ∈ wallInnerAngles m, AimsAtWall m a)
    (hout : ∀ a ∈ wallOuterAngles m, ¬ AimsAtWall m a) :
    (castAngles m ⟨0, 0⟩ wallLight.vertices).length = 14 ∧
    (retained m wallLight ⟨0, 0⟩).map (fun i => i.angle) = wallInnerAngles m ∧
    (retained m wallLight ⟨0, 0⟩).length = 8 ∧
    validRayCount m wallLight ⟨0, 0⟩ = 8 := by
  have hl : wallLight.lines = [wall] := rfl
  have hangles : (retained m wallLight ⟨0, 0⟩).map (fun i => i.angle) = wallInnerAngles m := by
    rw [retained_angles, wallLight_castAngles, hl]
    have hT : ∀ a ∈ wallInnerAngles m, rayHits m ⟨0, 0⟩ [wall] a = true :=
      fun a ha => (rayHits_wall_iff m a).mpr (hin a ha)
    have hF : ∀ a ∈ wallOuterAngles m, rayHits m ⟨0, 0⟩ [wall] a = false := by
      intro a ha
      cases hc : rayHits m ⟨0, 0⟩ [wall] a
      · rfl
      · exact absurd ((rayHits_wall_iff m a).mp hc) (hout a ha)
    simp only [wallInnerAngles, wallOuterAngles, List.mem_cons, List.mem_singleton,
      List.not_mem_nil, or_false, forall_eq_or_imp, forall_eq] at hT hF
    obtain ⟨t1, t2, t3, t4, t5, t6, t7, t8⟩ := hT
    obtain ⟨f1, f2, f3, f4, f5, f6⟩ := hF
    simp only [jitter, List.cons_append, List.nil_append, List.filter_cons, List.filter_nil,
      t1, t2, t3, t4, t5, t6, t7, t8, f1, f2, f3, f4, f5, f6, if_true, if_false,
      Bool.false_eq_true, wallInnerAngles]
  have hlen : (retained m wallLight ⟨0, 0⟩).length = 8 := by
    have := congrArg List.length hangles
    rw [List.length_map] at this
    rw [this]
    rfl
  refine ⟨?_, hangles, hlen, ?_⟩
  · rw [wallLight_castAngles]
    rfl
  · rw [← length_retained, hlen]

/-- Witness for C18 (amended): the diamond-angle stand-in for libm sends exactly the eight
inner rays at the segment. -/
theorem setPosition_wall_hits_witness :
    (∀ a ∈ wallInnerAngles diamondLibm, AimsAtWall diamondLibm a) ∧
    (∀ a ∈ wallOuterAngles diamondLibm, ¬ AimsAtWall diamondLibm a) ∧
    (castAngles diamondLibm ⟨0, 0⟩ wallLight.vertices).length = 14 ∧
    (retained diamondLibm wallLight ⟨0, 0⟩).map (fun i => i.angle)
      = wallInnerAngles diamondLibm ∧
    (retained diamondLibm wallLight ⟨0, 0⟩).length = 8 ∧
    validRayCount diamondLibm wallLight ⟨0, 0⟩ = 8 :=
  ⟨by decide!, by decide!, setPosition_wall_hits diamondLibm (by decide!) (by decide!)⟩

/-! ## The polygon in terms of the cast rays -/

theorem f32_le_self (a : F32) (h : a ≠ F32.nan) : F32.le a a = true := by
  cases a with
  | fin q => simp [F32.le]
  | inf n => cases n <;> rfl
  | nan => exact absurd rfl h

theorem f32_le_of_lt (a b : F32) (h : F32.lt a b = true) : F32.le a b = true := by
  cases a with
  | fin q =>
    cases b with
    | fin r =>
      simp only [F32.lt, decide_eq_true_eq] at h
      simp only [F32.le, decide_eq_true_eq]
      exact le_of_lt h
    | inf n => exact h
    | nan => simp [F32.lt] at h
  | inf n =>
    cases b with
    | fin r => exact h
    | inf k => cases n <;> cases k <;> simp [F32.lt, F32.le] at h ⊢
    | nan => simp [F32.lt] at h
  | nan => simp [F32.lt] at h

theorem f32_le_of_not_lt (a b : F32) (ha : a ≠ F32.nan) (hb : b ≠ F32.nan)
    (h : F32.lt a b = false) : F32.le b a = true := by
  cases a with
  | fin q =>
    cases b with
    | fin r =>
      simp only [F32.lt, decide_eq_false_iff_not, not_lt] at h
      simp only [F32.le, decide_eq_true_eq]
      exact h
    | inf n => cases n <;> simp [F32.lt, F32.le] at h ⊢
    | nan => exact absurd rfl hb
  | inf n =>
    cases b with
    | fin r => cases n <;> simp [F32.lt, F32.le] at h ⊢
    | inf k => cases n <;> cases k <;> simp [F32.lt, F32.le] at h ⊢
    | nan => exact absurd rfl hb
  | nan => exact absurd rfl ha

theorem f32_le_trans (a b c : F32) (hab : F32.le a b = true) (hbc : F32.le b c = true) :
    F32.le a c = true := by
  cases a with
  | fin q =>
    cases b with
    | fin r =>
      cases c with
      | fin t =>
        simp only [F32.le, decide_eq_true_eq] at hab hbc ⊢
        exact le_trans hab hbc
      | inf k => exact hbc
      | nan => simp [F32.le] at hbc
    | inf n =>
      cases c with
      | fin t => cases n <;> simp [F32.le] at hab hbc
      | inf k => cases n <;> cases k <;> simp [F32.le] at hab hbc ⊢
      | nan => simp [F32.le] at hbc
    | nan => simp [F32.le] at hab
  | inf n =>
    cases b with
    | fin r =>
      cases c with
      | fin t => exact hab
      | inf k => cases n <;> cases k <;> simp [F32.le] at hab hbc ⊢
      | nan => simp [F32.le] at hbc
    | inf j =>
      cases c with
      | fin t => cases n <;> cases j <;> simp [F32.le] at hab hbc ⊢
      | inf k => cases n <;> cases j <;> cases k <;> simp [F32.le] at hab hbc ⊢
      | nan => simp [F32.le] at hbc
    | nan => simp [F32.le] at hab
  | nan => simp [F32.le] at hab
theorem nearestAmong32_step (ray : Binary32.Line) (seen : List Binary32.Line)
    (acc : Binary32.Intersection) (line : Binary32.Line)
    (hnan : ∀ l ∈ seen ++ [line], (Binary32.getIntersection ray l).valid = true →
      (Binary32.getIntersection ray l).param ≠ F32.nan)
    (h : Binary32.NearestAmong ray seen acc) :
    Binary32.NearestAmong ray (seen ++ [line]) (Binary32.closestStep ray acc line) := by
  cases hv : (Binary32.getIntersection ray line).valid
  · -- the line is not hit: `closest_intersect` stays
    have hstep : Binary32.closestStep ray acc line = acc := by
      simp [Binary32.closestStep, hv]
    rw [hstep]
    rcases h with ⟨ha, hall⟩ | ⟨ha, ⟨l0, hl0, he⟩, hmin⟩
    · refine Or.inl ⟨ha, ?_⟩
      intro l hl
      rcases List.mem_append.mp hl with hl | hl
      · exact hall l hl
      · rw [List.mem_singleton.mp hl]
        exact hv
    · refine Or.inr ⟨ha, ⟨l0, List.mem_append_left _ hl0, he⟩, ?_⟩
      intro l hl hlv
      rcases List.mem_append.mp hl with hl | hl
      · exact hmin l hl hlv
      · rw [List.mem_singleton.mp hl, hv] at hlv
        exact absurd hlv (by simp)
  · have hline : (Binary32.getIntersection ray line).param ≠ F32.nan :=
      hnan line (List.mem_append_right _ (List.mem_singleton.mpr rfl)) hv
    rcases h with ⟨ha, hall⟩ | ⟨ha, ⟨l0, hl0, he⟩, hmin⟩
    · -- first valid intersection
      have hstep : Binary32.closestStep ray acc line = Binary32.getIntersection ray line := by
        simp [Binary32.closestStep, hv, ha]
      rw [hstep]
      refine Or.inr ⟨hv, ⟨line, by simp, rfl⟩, ?_⟩
      intro l hl hlv
      rcases List.mem_append.mp hl with hl | hl
      · rw [hall l hl] at hlv
        exact absurd hlv (by simp)
      · rw [List.mem_singleton.mp hl]
        exact f32_le_self _ hline
    · have hacc : acc.param ≠ F32.nan := by
        rw [he]
        exact hnan l0 (List.mem_append_left _ hl0) (he ▸ ha)
      cases hlt : F32.lt (Binary32.getIntersection ray line).param acc.param
      · have hstep : Binary32.closestStep ray acc line = acc := by
          simp [Binary32.closestStep, hv, ha, hlt]
        rw [hstep]
        refine Or.inr ⟨ha, ⟨l0, List.mem_append_left _ hl0, he⟩, ?_⟩
        intro l hl hlv
        rcases List.mem_append.mp hl with hl | hl
        · exact hmin l hl hlv
        · rw [List.mem_singleton.mp hl]
          exact f32_le_of_not_lt _ _ hline hacc hlt
      · have hstep : Binary32.closestStep ray acc line
            = Binary32.getIntersection ray line := by
          simp [Binary32.closestStep, hv, ha, hlt]
        rw [hstep]
        refine Or.inr ⟨hv, ⟨line, by simp, rfl⟩, ?_⟩
        intro l hl hlv
        rcases List.mem_append.mp hl with hl | hl
        · exact f32_le_trans _ _ _ (f32_le_of_lt _ _ hlt) (hmin l hl hlv)
        · rw [List.mem_singleton.mp hl]
          exact f32_le_self _ hline

theorem nearestAmong32_foldl (ray : Binary32.Line) (lines seen : List Binary32.Line)
    (acc : Binary32.Intersection)
    (hnan : ∀ l ∈ seen ++ lines, (Binary32.getIntersection ray l).valid = true →
      (Binary32.getIntersection ray l).param ≠ F32.nan)
    (h : Binary32.NearestAmong ray seen acc) :
    Binary32.NearestAmong ray (seen ++ lines)
      (lines.foldl (Binary32.closestStep ray) acc) := by
  induction lines generalizing seen acc with
  | nil => simpa using h
  | cons l ls ih =>
    rw [List.foldl_cons]
    have hnan1 : ∀ l' ∈ seen ++ [l], (Binary32.getIntersection ray l').valid = true →
        (Binary32.getIntersection ray l').param ≠ F32.nan := by
      intro l' hl'
      apply hnan
      rcases List.mem_append.mp hl' with h1 | h1
      · exact List.mem_append_left _ h1
      · rw [List.mem_singleton.mp h1]
        exact List.mem_append_right _ (List.mem_cons_self _ _)
    have hnan2 : ∀ l' ∈ (seen ++ [l]) ++ ls, (Binary32.getIntersection ray l').valid = true →
        (Binary32.getIntersection ray l').param ≠ F32.nan := by
      intro l' hl'
      apply hnan
      simpa using hl'
    have := ih (seen ++ [l]) (Binary32.closestStep ray acc l) hnan2
      (nearestAmong32_step ray seen acc l hnan1 h)
    simpa using this

theorem nearestAmong32_closestIntersect (ray : Binary32.Line) (lines : List Binary32.Line)
    (hnan : ∀ l ∈ lines, (Binary32.getIntersection ray l).valid = true →
      (Binary32.getIntersection ray l).param ≠ F32.nan) :
    Binary32.NearestAmong ray lines (Binary32.closestIntersect ray lines) := by
  have h0 : Binary32.NearestAmong ray [] ({} : Binary32.Intersection) :=
    Or.inl ⟨rfl, fun l hl => absurd hl (List.not_mem_nil l)⟩
  have := nearestAmong32_foldl ray lines [] {} (by simpa using hnan) h0
  simpa [Binary32.closestIntersect] using this

theorem castRays32_foldl (m : Binary32.Libm) (p : Binary32.Vector2f)
    (lines : List Binary32.Line) (angles : List F32) (init : List Binary32.Intersection) :
    angles.foldl
        (fun intersections angle =>
          let closest_intersect :=
            Binary32.closestIntersect (Binary32.rayOf m p angle) lines
          if !closest_intersect.valid then intersections
          else intersections ++ [{ closest_intersect with angle := angle }])
        init
      = init ++ angles.flatMap (fun a => Binary32.castRays m p lines [a]) := by
  induction angles generalizing init with
  | nil => simp
  | cons a as ih =>
    rw [List.foldl_cons, ih, List.flatMap_cons, ← List.append_assoc]
    congr 1
    cases hv : (Binary32.closestIntersect (Binary32.rayOf m p a) lines).valid <;>
      simp [Binary32.castRays, hv]

theorem castRays32_singleton (m : Binary32.Libm) (p : Binary32.Vector2f)
    (lines : List Binary32.Line) (angle : F32) :
    Binary32.castRays m p lines [angle] =
      if (Binary32.closestIntersect (Binary32.rayOf m p angle) lines).valid = true then
        [{ Binary32.closestIntersect (Binary32.rayOf m p angle) lines with angle := angle }]
      else [] := by
  cases hv : (Binary32.closestIntersect (Binary32.rayOf m p angle) lines).valid <;>
    simp [Binary32.castRays, hv]

/-- C19 (counterexample): in binary32 arithmetic, for the ray cast from the origin at angle
`0` against the segment from `(2, -2^127)` to `(2, 2^127)` and the segment from `(1, 0)` to
`(1, 1)`, both segments give a valid intersection, the first with `param` NaN and the second
with `param` `1`; the intersection retained is the first, and its `param` is not `<=` the
`param` of the second. All coordinates are binary32 values, and the ray at angle `0` is the
one `setPosition` casts for the vertex `(1, 0)` (`atan2f(0, 1)` is `0`). -/
theorem castRays_retains_nan :
    F32.round (F32.pow2 127) = .fin (F32.pow2 127) ∧
    F32.round (F32.pow2 128) = .inf false ∧
    (Binary32.getIntersection (Binary32.rayOf Binary32.axisLibm {} (.fin 0))
        Binary32.bigWall).valid = true ∧
    (Binary32.getIntersection (Binary32.rayOf Binary32.axisLibm {} (.fin 0))
        Binary32.bigWall).param = .nan ∧
    (Binary32.getIntersection (Binary32.rayOf Binary32.axisLibm {} (.fin 0))
        Binary32.nearWall).valid = true ∧
    (Binary32.getIntersection (Binary32.rayOf Binary32.axisLibm {} (.fin 0))
        Binary32.nearWall).param = .fin 1 ∧
    Binary32.castRays Binary32.axisLibm {} [Binary32.bigWall, Binary32.nearWall] [.fin 0]
      = [{ Binary32.getIntersection (Binary32.rayOf Binary32.axisLibm {} (.fin 0))
             Binary32.bigWall with angle := .fin 0 }] ∧
    F32.le
      (Binary32.getIntersection (Binary32.rayOf Binary32.axisLibm {} (.fin 0))
        Binary32.bigWall).param
      (Binary32.getIntersection (Binary32.rayOf Binary32.axisLibm {} (.fin 0))
        Binary32.nearWall).param = false := by
  decide!

/-- C19 (amended): in binary32 arithmetic, for every ray and occluder list such that no valid
intersection of the ray has a NaN `param`: if some line gives a valid intersection then
exactly one intersection is retained for the ray, it is the valid intersection with one of
the lines (tagged with the ray angle), and its `param` is `<=` that of every valid
intersection of the ray; if no line gives a valid intersection, nothing is retained. The
rays contribute independently. -/
theorem castRays_keeps_nearest_unless_nan (m : Binary32.Libm) (p : Binary32.Vector2f)
    (lines : List Binary32.Line) (angle : F32)
    (hnan : ∀ line ∈ lines,
      (Binary32.getIntersection (Binary32.rayOf m p angle) line).valid = true →
        (Binary32.getIntersection (Binary32.rayOf m p angle) line).param ≠ F32.nan) :
    ((∃ line ∈ lines, (Binary32.getIntersection (Binary32.rayOf m p angle) line).valid = true) →
      ∃ line ∈ lines,
        (Binary32.getIntersection (Binary32.rayOf m p angle) line).valid = true ∧
        Binary32.castRays m p lines [angle]
          = [{ Binary32.getIntersection (Binary32.rayOf m p angle) line with
               angle := angle }] ∧
        ∀ line' ∈ lines,
          (Binary32.getIntersection (Binary32.rayOf m p angle) line').valid = true →
            F32.le (Binary32.getIntersection (Binary32.rayOf m p angle) line).param
              (Binary32.getIntersection (Binary32.rayOf m p angle) line').param = true) ∧
    ((¬ ∃ line ∈ lines,
        (Binary32.getIntersection (Binary32.rayOf m p angle) line).valid = true) →
      Binary32.castRays m p lines [angle] = []) ∧
    ∀ angles : List F32,
      Binary32.castRays m p lines angles
        = angles.flatMap (fun a => Binary32.castRays m p lines [a]) := by
  refine ⟨?_, ?_, ?_⟩
  · rintro ⟨l1, hl1, hv1⟩
    rcases nearestAmong32_closestIntersect (Binary32.rayOf m p angle) lines hnan with
      ⟨_, hall⟩ | ⟨ha, ⟨l0, hl0, he⟩, hmin⟩
    · rw [hall l1 hl1] at hv1
      exact absurd hv1 (by simp)
    · refine ⟨l0, hl0, he ▸ ha, ?_, ?_⟩
      · rw [castRays32_singleton, if_pos ha, he]
      · intro l' hl' hv'
        rw [← he]
        exact hmin l' hl' hv'
  · intro hno
    rw [castRays32_singleton]
    rcases nearestAmong32_closestIntersect (Binary32.rayOf m p angle) lines hnan with
      ⟨ha, _⟩ | ⟨ha, ⟨l0, hl0, he⟩, _⟩
    · rw [ha]
      rfl
    · exact absurd ⟨l0, hl0, he ▸ ha⟩ hno
  · intro angles
    have := castRays32_foldl m p lines angles []
    simpa [Binary32.castRays] using this

/-- Witness for C19 (amended): the ray at angle `0` from the origin against the segment from
`(3, -1)` to `(3, 1)` and the segment from `(1, 0)` to `(1, 1)`; no `param` is NaN and the
nearer segment is retained. -/
theorem castRays_keeps_nearest_unless_nan_witness :
    (∀ line ∈ [Binary32.farWall, Binary32.nearWall],
      (Binary32.getIntersection (Binary32.rayOf Binary32.axisLibm {} (.fin 0)) line).valid
          = true →
        (Binary32.getIntersection (Binary32.rayOf Binary32.axisLibm {} (.fin 0)) line).param
          ≠ F32.nan) ∧
    (∃ line ∈ [Binary32.farWall, Binary32.nearWall],
      (Binary32.getIntersection (Binary32.rayOf Binary32.axisLibm {} (.fin 0)) line).valid
        = true) ∧
    ∃ line ∈ [Binary32.farWall, Binary32.nearWall],
      (Binary32.getIntersection (Binary32.rayOf Binary32.axisLibm {} (.fin 0)) line).valid
        = true ∧
      Binary32.castRays Binary32.axisLibm {} [Binary32.farWall, Binary32.nearWall] [.fin 0]
        = [{ Binary32.getIntersection (Binary32.rayOf Binary32.axisLibm {} (.fin 0)) line with
             angle := .fin 0 }] ∧
      ∀ line' ∈ [Binary32.farWall, Binary32.nearWall],
        (Binary32.getIntersection (Binary32.rayOf Binary32.axisLibm {} (.fin 0)) line').valid
            = true →
          F32.le
            (Binary32.getIntersection (Binary32.rayOf Binary32.axisLibm {} (.fin 0)) line).param
            (Binary32.getIntersection (Binary32.rayOf Binary32.axisLibm {} (.fin 0))
              line').param = true :=
  ⟨by decide!, ⟨Binary32.nearWall, by decide!, by decide!⟩,
   (castRays_keeps_nearest_unless_nan Binary32.axisLibm {}
      [Binary32.farWall, Binary32.nearWall] (.fin 0) (by decide!)).1
     ⟨Binary32.nearWall, by decide!, by decide!⟩⟩

end lit
